import Mathlib

/-!
Verification of the match-file line parser of `partitura/match.py`.

The development shallowly embeds the module: Python values become the
inductive `PyVal`, Python floats become exact rationals together with an
explicit round-to-nearest-even step (`roundFloat`), fallible Python code
returns `Except PyErr`, and the `re` patterns of the source are
transliterated token by token into a small greedy-backtracking matcher
(`runToks` / `reSearch`) that implements the fragment of Python regular
expressions those patterns use: literals, character classes, the
any-character dot, greedy `*` and `+` on single-character items,
capturing groups, and leftmost search.
Each record class of the source is a structure with a
constructor function mirroring the `__init__` validation, a
`from_matchline` mirroring the class method, and a `matchline`
serializer mirroring the `matchline` property.
-/

set_option maxRecDepth 8000

/-- Python exception classes that the embedded code can raise.  `matchError`
is the module's own `MatchError`; the rest are builtins. -/
inductive PyErr where
  | matchError
  | valueError
  | typeError
  | attributeError
  | keyError
  | zeroDivisionError
  | overflowError
deriving DecidableEq

/-- An exact rational in lowest terms with positive denominator.  The
development uses its own rational representation (rather than `ℚ`) so that
every arithmetic step is a plain `Int`/`Nat` computation the kernel can
evaluate. -/
structure QR where
  num : ℤ
  den : ℕ
deriving DecidableEq

/-- Integer power (structural, kernel-friendly). -/
def ipow (b : ℤ) : ℕ → ℤ
  | 0 => 1
  | k + 1 => ipow b k * b

/-- Normalize an integer fraction `n / d` to lowest terms with positive
denominator (`d = 0` never occurs in the flows and maps to 0). -/
def qrMk (n d : ℤ) : QR :=
  if d = 0 then ⟨0, 1⟩
  else
    let n' := if d < 0 then -n else n
    let dn : ℕ := d.natAbs
    let g := Nat.gcd n'.natAbs dn
    ⟨Int.tdiv n' (g : ℤ), dn / g⟩

/-- The rational value of an integer. -/
def qrOfInt (n : ℤ) : QR := ⟨n, 1⟩

/-- The rational value of a natural number. -/
def qrOfNat (n : ℕ) : QR := ⟨(n : ℤ), 1⟩

/-- Zero. -/
def qrZero : QR := ⟨0, 1⟩

/-- Rational addition. -/
def qrAdd (a b : QR) : QR :=
  qrMk (a.num * (b.den : ℤ) + b.num * (a.den : ℤ)) ((a.den : ℤ) * (b.den : ℤ))

/-- Rational negation. -/
def qrNeg (a : QR) : QR := ⟨-a.num, a.den⟩

/-- Rational subtraction. -/
def qrSub (a b : QR) : QR := qrAdd a (qrNeg b)

/-- Rational multiplication. -/
def qrMul (a b : QR) : QR := qrMk (a.num * b.num) ((a.den : ℤ) * (b.den : ℤ))

/-- Rational division (division by zero never occurs in the flows and maps
to 0). -/
def qrDiv (a b : QR) : QR := qrMk (a.num * (b.den : ℤ)) ((a.den : ℤ) * b.num)

/-- Absolute value. -/
def qrAbs (a : QR) : QR := ⟨(a.num.natAbs : ℤ), a.den⟩

/-- Whether the rational is strictly positive. -/
def qrIsPos (a : QR) : Bool := 0 < a.num

/-- Floor. -/
def qrFloor (a : QR) : ℤ := Int.fdiv a.num (a.den : ℤ)

/-- Truncation toward zero (Python `int()` of a float). -/
def qrTrunc (a : QR) : ℤ := Int.tdiv a.num (a.den : ℤ)

/-- Model of a CPython `float`: an exactly-representable binary64 value as a
rational, or one of the special values. -/
inductive PFloat where
  | finite (q : QR)
  | inf
  | neginf
  | nan
deriving DecidableEq

/-- Round `n / d` (with `d > 0`) to the nearest natural number, ties to even. -/
def roundHalfEven (n d : ℕ) : ℕ :=
  let q := n / d
  let r := n % d
  if 2 * r < d then q
  else if d < 2 * r then q + 1
  else if q % 2 = 0 then q else q + 1

/-- Round a nonnegative rational to the nearest natural number, ties to even. -/
def roundHalfEvenQ (q : QR) : ℕ := roundHalfEven q.num.natAbs q.den

/-- Multiply a rational by `2 ^ k` for a possibly negative `k`. -/
def qScale2 (q : QR) (k : ℤ) : QR :=
  if 0 ≤ k then qrMul q (qrOfInt (ipow 2 k.toNat))
  else qrDiv q (qrOfInt (ipow 2 (-k).toNat))

/-- Multiply a rational by `10 ^ k` for a possibly negative `k`. -/
def qScale10 (q : QR) (k : ℤ) : QR :=
  if 0 ≤ k then qrMul q (qrOfInt (ipow 10 k.toNat))
  else qrDiv q (qrOfInt (ipow 10 (-k).toNat))

/-- Decide `2 ^ k ≤ q` for positive `q`. -/
def pow2Le (k : ℤ) (q : QR) : Bool :=
  if 0 ≤ k then ipow 2 k.toNat * (q.den : ℤ) ≤ q.num
  else (q.den : ℤ) ≤ ipow 2 (-k).toNat * q.num

/-- Decide `10 ^ k ≤ q` for positive `q`. -/
def pow10Le (k : ℤ) (q : QR) : Bool :=
  if 0 ≤ k then ipow 10 k.toNat * (q.den : ℤ) ≤ q.num
  else (q.den : ℤ) ≤ ipow 10 (-k).toNat * q.num

/-- Binary logarithm (floor) with explicit fuel, so that the kernel can
reduce it (`Nat.log2` itself is defined by well-founded recursion). -/
def log2fuel : ℕ → ℕ → ℕ
  | 0, _ => 0
  | fuel + 1, n => if n < 2 then 0 else log2fuel fuel (n / 2) + 1

/-- Floor of the base-2 logarithm of a positive natural number. -/
def natLog2 (n : ℕ) : ℕ := log2fuel n n

/-- Number of decimal digits with explicit fuel. -/
def numDigitsFuel : ℕ → ℕ → ℕ
  | 0, _ => 1
  | fuel + 1, n => if n < 10 then 1 else numDigitsFuel fuel (n / 10) + 1

/-- Number of decimal digits of a natural number (`numDigits10 0 = 1`). -/
def numDigits10 (n : ℕ) : ℕ := numDigitsFuel n n

/-- Floor of the base-2 logarithm of a positive rational. -/
def qfloorLog2 (q : QR) : ℤ :=
  let e0 : ℤ := (natLog2 q.num.natAbs : ℤ) - (natLog2 q.den : ℤ)
  if pow2Le (e0 + 1) q then e0 + 1
  else if pow2Le e0 q then e0 else e0 - 1

/-- Floor of the base-10 logarithm of a positive rational. -/
def qfloorLog10 (q : QR) : ℤ :=
  let e0 : ℤ := (numDigits10 q.num.natAbs : ℤ) - (numDigits10 q.den : ℤ)
  if pow10Le (e0 + 1) q then e0 + 1
  else if pow10Le e0 q then e0 else e0 - 1

/-- Rounding of a positive rational to binary64, round-to-nearest ties-even,
with gradual underflow and overflow to infinity. -/
def roundFloatPos (q : QR) : PFloat :=
  let e := qfloorLog2 q
  if e < -1022 then
    .finite (qrDiv (qrOfNat (roundHalfEvenQ (qrMul q (qrOfInt (ipow 2 1074)))))
                   (qrOfInt (ipow 2 1074)))
  else
    let m := roundHalfEvenQ (qScale2 q (52 - e))
    let m' := if m = 2 ^ 53 then 2 ^ 52 else m
    let e' := if m = 2 ^ 53 then e + 1 else e
    if 1023 < e' then .inf
    else .finite (qScale2 (qrOfNat m') (e' - 52))

/-- Rounding of an exact rational to the nearest binary64 value, the rounding
CPython applies when a `float` is produced (by literal conversion or by an
arithmetic operation on exact inputs). -/
def roundFloat (q : QR) : PFloat :=
  if q = qrZero then .finite qrZero
  else if qrIsPos q then roundFloatPos q
  else
    match roundFloatPos (qrNeg q) with
    | .finite r => .finite (qrNeg r)
    | .inf => .neginf
    | x => x

/-- The ten ASCII digit characters, by value. -/
def digitChar : ℕ → Char
  | 0 => '0' | 1 => '1' | 2 => '2' | 3 => '3' | 4 => '4'
  | 5 => '5' | 6 => '6' | 7 => '7' | 8 => '8' | _ => '9'

/-- Numeric value of an ASCII digit character (`0` on other input). -/
def digitVal (c : Char) : ℕ :=
  match c with
  | '0' => 0 | '1' => 1 | '2' => 2 | '3' => 3 | '4' => 4
  | '5' => 5 | '6' => 6 | '7' => 7 | '8' => 8 | '9' => 9
  | _ => 0

/-- Whether a character is an ASCII digit. -/
def isDigitB (c : Char) : Bool := '0' ≤ c && c ≤ '9'

/-- Whether a character is regex-`\s` whitespace (the cases occurring in
match-file lines). -/
def isWs (c : Char) : Bool := c == ' ' || c == '\t' || c == '\n' || c == '\r'

/-- Decimal digit string with explicit fuel. -/
def natStrFuel : ℕ → ℕ → List Char
  | 0, n => [digitChar n]
  | fuel + 1, n =>
    if n < 10 then [digitChar n]
    else natStrFuel fuel (n / 10) ++ [digitChar (n % 10)]

/-- Decimal digit string of a natural number, most significant digit first. -/
def natStr (n : ℕ) : List Char := natStrFuel n n

/-- Decimal digit string of an integer (Python `str` of an `int`). -/
def intStr (n : ℤ) : List Char :=
  if n < 0 then '-' :: natStr (-n).toNat else natStr n.toNat

/-- Value of a string of ASCII digits read in base 10. -/
def digitsVal (ds : List Char) : ℕ :=
  ds.foldl (fun a c => a * 10 + digitVal c) 0

/-- Longest prefix of characters satisfying `m`, together with the rest. -/
def takeRun (m : Char → Bool) : List Char → List Char × List Char
  | [] => ([], [])
  | c :: cs =>
    if m c then (c :: (takeRun m cs).1, (takeRun m cs).2)
    else ([], c :: cs)

/-- Strip leading and trailing whitespace (Python `str.strip` as applied by
`int()` / `float()` conversion). -/
def trimWs (s : List Char) : List Char :=
  ((s.dropWhile isWs).reverse.dropWhile isWs).reverse

/-- Strip one optional leading sign, reporting whether it was `-`. -/
def stripSign : List Char → Bool × List Char
  | [] => (false, [])
  | c :: t =>
    if c = '-' then (true, t)
    else if c = '+' then (false, t)
    else (false, c :: t)

/-- CPython `int(s)` on a string: optional surrounding whitespace, an optional
sign and a nonempty digit run (digit-group underscores are not modelled; no
token of the grammars contains them). -/
def pyIntParse (s : List Char) : Option ℤ :=
  let t := trimWs s
  let p := stripSign t
  let d := takeRun isDigitB p.2
  if d.1 = [] then none
  else if d.2 = [] then
    some (if p.1 then -(digitsVal d.1 : ℤ) else (digitsVal d.1 : ℤ))
  else none

/-- Build the parsed float value from integer digits, fraction digits and a
base-10 exponent. -/
def mkPFloat (neg : Bool) (ip fp : List Char) (ex : ℤ) : PFloat :=
  let base : QR := qrAdd (qrOfNat (digitsVal ip))
                         (qrDiv (qrOfNat (digitsVal fp)) (qrOfInt (ipow 10 fp.length)))
  let v := qScale10 base ex
  roundFloat (if neg then qrNeg v else v)

/-- Exponent part of a float literal: sign and nonempty digit run. -/
def parseExpPart (neg : Bool) (ip fp : List Char) (t : List Char) : Option PFloat :=
  let p := stripSign t
  let d := takeRun isDigitB p.2
  if d.1 = [] then none
  else if d.2 = [] then
    some (mkPFloat neg ip fp (if p.1 then -(digitsVal d.1 : ℤ) else (digitsVal d.1 : ℤ)))
  else none

/-- Lower-case a string (ASCII). -/
def lowerList (s : List Char) : List Char := s.map Char.toLower

/-- CPython `float(s)` on a string: optional whitespace and sign, then either
a named special value or a decimal literal with optional fraction and
exponent.  Out-of-range magnitudes convert to infinities, as in CPython
(string conversion uses `strtod` semantics and does not raise on overflow). -/
def pyFloatParse (s : List Char) : Option PFloat :=
  let t := trimWs s
  let p := stripSign t
  let neg := p.1
  let d := takeRun isDigitB p.2
  if d.1 = [] ∧ d.2.head? ≠ some '.' then
    let low := lowerList p.2
    if low = ('i' :: 'n' :: 'f' :: []) ∨
       low = ('i' :: 'n' :: 'f' :: 'i' :: 'n' :: 'i' :: 't' :: 'y' :: []) then
      some (if neg then .neginf else .inf)
    else if low = ('n' :: 'a' :: 'n' :: []) then some .nan
    else none
  else
    let ip := d.1
    let hasDot : Bool := d.2.head? = some '.'
    let r2 := if hasDot then d.2.tail else d.2
    let f := if hasDot then takeRun isDigitB r2 else ([], r2)
    if ip = [] ∧ f.1 = [] then none
    else
      match f.2 with
      | [] => some (mkPFloat neg ip f.1 0)
      | 'e' :: t4 => parseExpPart neg ip f.1 t4
      | 'E' :: t4 => parseExpPart neg ip f.1 t4
      | _ => none

/-- Digit list of the shortest-roundtrip mantissa at precision `p`:
the nearest `p`-digit decimal to `q`, with its (possibly bumped) exponent. -/
def mantissaAt (q : QR) (e10 : ℤ) (p : ℕ) : ℕ × ℤ :=
  let m := roundHalfEvenQ (qScale10 q ((p - 1 : ℕ) - e10))
  if 10 ^ p ≤ m then (m / 10, e10 + 1) else (m, e10)

/-- Search for the least number of significant digits whose nearest decimal
converts back to exactly the stored binary64 value, as CPython `repr` does. -/
def shortestMantissa (q : QR) (e10 : ℤ) : ℕ → ℕ × ℤ
  | 0 => mantissaAt q e10 17
  | fuel + 1 =>
    let p := 18 - (fuel + 1)
    let c := mantissaAt q e10 p
    if roundFloat (qScale10 (qrOfNat c.1) (c.2 - (p - 1 : ℕ))) = roundFloat q then c
    else shortestMantissa q e10 fuel

/-- Fixed-notation rendering of mantissa digits at decimal exponent `e10`. -/
def fixedRepr (digs : List Char) (e10 : ℤ) : List Char :=
  if 0 ≤ e10 then
    let ip := e10.toNat + 1
    if digs.length ≤ ip then
      digs ++ List.replicate (ip - digs.length) '0' ++ ('.' :: '0' :: [])
    else digs.take ip ++ '.' :: digs.drop ip
  else '0' :: '.' :: (List.replicate ((-e10).toNat - 1) '0' ++ digs)

/-- Scientific-notation rendering of mantissa digits at decimal exponent
`e10`, in CPython style (`1e+16`, `1.5e-05`). -/
def sciRepr (digs : List Char) (e10 : ℤ) : List Char :=
  (match digs with
   | [d] => [d]
   | d :: rest => d :: '.' :: rest
   | [] => ['0'])
  ++ 'e' :: (if e10 < 0 then '-' else '+') ::
     (let a := e10.natAbs
      if a < 10 then '0' :: natStr a else natStr a)

/-- CPython `str` / `repr` of a float: the shortest decimal string that
converts back to the same binary64 value, fixed notation for decimal
exponents in `[-4, 16)` and scientific notation outside. -/
def pyFloatRepr : PFloat → List Char
  | .inf => 'i' :: 'n' :: 'f' :: []
  | .neginf => '-' :: 'i' :: 'n' :: 'f' :: []
  | .nan => 'n' :: 'a' :: 'n' :: []
  | .finite q =>
    if q = qrZero then '0' :: '.' :: '0' :: []
    else
      let a := qrAbs q
      let me := shortestMantissa a (qfloorLog10 a) 17
      let digs := natStr me.1
      let core := if -4 ≤ me.2 ∧ me.2 < 16 then fixedRepr digs me.2 else sciRepr digs me.2
      if q.num < 0 then '-' :: core else core

/-- Single-character matchers occurring in the source's patterns. -/
inductive CM where
  | lit (c : Char)
  | notOf (cs : List Char)
  | digit
  | ws
  | dot
deriving DecidableEq

/-- Whether character `c` is accepted by the matcher. Python `.` matches any
character except a newline. -/
def cmMatch : CM → Char → Bool
  | .lit a, c => a == c
  | .notOf cs, c => !(cs.contains c)
  | .digit, c => isDigitB c
  | .ws, c => isWs c
  | .dot, c => c != '\n'

/-- Quantifier on a pattern token. -/
inductive Quant where
  | one
  | star
  | plus
deriving DecidableEq

/-- One token of a pattern: a character matcher, a quantifier, and whether
the token is a capturing group.  Every pattern in the source is a sequence
of such tokens. -/
structure Tok where
  cm : CM
  q : Quant
  cap : Bool
deriving DecidableEq

/-- A literal pattern character. -/
def lt1 (c : Char) : Tok := ⟨.lit c, .one, false⟩

/-- Literal pattern text. -/
def lits (s : List Char) : List Tok := s.map lt1

/-- A capturing `([^,]+)`-style group. -/
def capPlus (m : CM) : Tok := ⟨m, .plus, true⟩

/-- A capturing `([^,]*)`-style group. -/
def capStar (m : CM) : Tok := ⟨m, .star, true⟩

/-- A non-capturing greedy star such as `\s*` or `[^\)]*`. -/
def star0 (m : CM) : Tok := ⟨m, .star, false⟩

/-- Greedy backtracking over the possible lengths of a quantified run:
lengths `j, j-1, …, mn` of the maximal run `r` are offered to the
continuation `k`, longest first. -/
def tryLens {R : Type} (r rest : List Char) (k : List Char → List Char → Option R)
    (mn : ℕ) : ℕ → Option R
  | 0 =>
    if 0 < mn then none else k (r.take 0) (r.drop 0 ++ rest)
  | j + 1 =>
    if j + 1 < mn then none
    else
      match k (r.take (j + 1)) (r.drop (j + 1) ++ rest) with
      | some x => some x
      | none => tryLens r rest k mn j

/-- Match one token against a prefix of `s`, calling the continuation with
the consumed characters and the remaining input; greedy quantifiers
backtrack from the longest run. -/
def runTok {R : Type} (t : Tok) (s : List Char) (k : List Char → List Char → Option R) :
    Option R :=
  match t.q with
  | .one =>
    match s with
    | [] => none
    | c :: s' => if cmMatch t.cm c then k [c] s' else none
  | .star =>
    let p := takeRun (cmMatch t.cm) s
    tryLens p.1 p.2 k 0 p.1.length
  | .plus =>
    let p := takeRun (cmMatch t.cm) s
    tryLens p.1 p.2 k 1 p.1.length

/-- Match a token sequence against a prefix of `s`, accumulating the
captures of capturing tokens in order; Python `re` backtracking semantics
for the pattern fragment used by the source. -/
def runToks {R : Type} : List Tok → List Char → (List (List Char) → List Char → Option R) →
    Option R
  | [], s, k => k [] s
  | t :: ts, s, k =>
    runTok t s (fun consumed rest =>
      runToks ts rest (fun caps rest2 =>
        k (if t.cap then consumed :: caps else caps) rest2))

/-- Python `re.search`: try a match at every start position, leftmost first,
returning the captures (`match.groups()`).  The match need not extend to
the end of the string. -/
def reSearch (toks : List Tok) : List Char → Option (List (List Char))
  | [] =>
    runToks toks [] (fun caps _ => some caps)
  | c :: s' =>
    match runToks toks (c :: s') (fun caps _ => some caps) with
    | some caps => some caps
    | none => reSearch toks s'

/-- Python `re.match` of a pattern anchored with a final `$` (as
`rational_pattern` is): a match at position 0 reaching the end. -/
def reMatchEnd (toks : List Tok) (s : List Char) : Option (List (List Char)) :=
  runToks toks s (fun caps rest => if rest = [] then some caps else none)

/-- Convenience: the character list of a string literal. -/
def strL (s : String) : List Char := s.toList

instance {ε α : Type} [DecidableEq ε] [DecidableEq α] : DecidableEq (Except ε α) :=
  fun a b =>
    match a, b with
    | .ok x, .ok y =>
      if h : x = y then .isTrue (by rw [h])
      else .isFalse (by intro he; cases he; exact h rfl)
    | .error e, .error f =>
      if h : e = f then .isTrue (by rw [h])
      else .isFalse (by intro he; cases he; exact h rfl)
    | .ok _, .error _ => .isFalse (by intro he; cases he)
    | .error _, .ok _ => .isFalse (by intro he; cases he)

/-- The `[^,]` character class. -/
def nc : CM := .notOf [',']

/-- Tokens of `rational_pattern = '^([0-9]+)/([0-9]+)$'` (line 22). -/
def ratToks : List Tok := [capPlus .digit, lt1 '/', capPlus .digit]

/-- Tokens of MatchSnote.pattern (line 223). -/
def snoteToks : List Tok :=
  lits (strL (r"snote(")) ++
  [capPlus nc, lt1 ',', lt1 '[', capPlus nc, lt1 ',', capPlus nc, lt1 ']', lt1 ',',
   capPlus nc, lt1 ',', capPlus nc, lt1 ':', capPlus nc, lt1 ',',
   capPlus nc, lt1 ',', capPlus nc, lt1 ',', capPlus nc, lt1 ',', capPlus nc, lt1 ',',
   lt1 '[', capStar .dot, lt1 ']', lt1 ')']

/-- Tokens of MatchPnote.pattern, the 8-field performed-note pattern (line 293). -/
def pnoteToks : List Tok :=
  lits (strL (r"note(")) ++
  [capPlus nc, lt1 ',', lt1 '[', capPlus nc, lt1 ',', capPlus nc, lt1 ']', lt1 ',',
   capPlus nc, lt1 ',', capPlus nc, lt1 ',', capPlus nc, lt1 ',', capPlus nc, lt1 ',',
   capPlus nc, lt1 ')']

/-- Tokens of MatchPnote.pattern_v1, the legacy 7-field pattern (line 300). -/
def pnoteV1Toks : List Tok :=
  lits (strL (r"note(")) ++
  [capPlus nc, lt1 ',', lt1 '[', capPlus nc, lt1 ',', capPlus nc, lt1 ']', lt1 ',',
   capPlus nc, lt1 ',', capPlus nc, lt1 ',', capPlus nc, lt1 ',',
   capPlus nc, lt1 ')']

/-- Tokens of MatchSnoteNote.pattern (line 422): score-note pattern, `-`,
performed-note pattern. -/
def snoteNoteToks : List Tok := snoteToks ++ [lt1 '-'] ++ pnoteToks

/-- Tokens of MatchSnoteNote.pattern_v1 (line 427).  The source concatenates
`MatchPnote.pattern` (not the score-note pattern) with the legacy
performed-note pattern; this transliteration preserves that. -/
def snoteNoteV1Toks : List Tok := pnoteToks ++ [lt1 '-'] ++ pnoteV1Toks

/-- Tokens of MatchSnoteDeletion.pattern (line 494). -/
def snoteDeletionToks : List Tok := snoteToks ++ lits (strL (r"-deletion."))

/-- Tokens of MatchInsertionNote.pattern (line 526); the trailing `.` of the
source pattern is unescaped, hence an any-character token. -/
def insertionToks : List Tok :=
  lits (strL (r"insertion-")) ++ pnoteToks ++ [⟨.dot, .one, false⟩]

/-- Tokens of MatchSustainPedal.pattern (line 559). -/
def sustainToks : List Tok :=
  lits (strL (r"sustain(")) ++
  [star0 .ws, capStar nc, star0 .ws, lt1 ',', star0 .ws, capStar nc, star0 .ws] ++
  lits (strL (r")."))

/-- Tokens of MatchSoftPedal.pattern (line 580). -/
def softToks : List Tok :=
  lits (strL (r"soft(")) ++
  [star0 .ws, capStar nc, star0 .ws, lt1 ',', star0 .ws, capStar nc, star0 .ws] ++
  lits (strL (r")."))

/-- Tokens of MatchInfo.pattern (line 177). -/
def infoToks : List Tok :=
  lits (strL (r"info(")) ++
  [star0 .ws, capPlus nc, star0 .ws, lt1 ',', star0 .ws, capPlus .dot, star0 .ws] ++
  lits (strL (r")."))

/-- Tokens of MatchMeta.pattern (line 195). -/
def metaToks : List Tok :=
  lits (strL (r"meta(")) ++
  [star0 .ws, capStar nc, star0 .ws, lt1 ',', star0 .ws, capStar nc, star0 .ws, lt1 ',',
   star0 .ws, capStar nc, star0 .ws, lt1 ',', star0 .ws, capStar nc, star0 .ws] ++
  lits (strL (r")."))

/-- Model of a Python value as passed around by the module: None, int,
float, str, or list.  The only lists the module builds or stores are lists
of strings (score attribute tags), so list values carry strings. -/
inductive PyVal where
  | none
  | int (n : ℤ)
  | float (f : PFloat)
  | str (s : List Char)
  | list (xs : List (List Char))
deriving DecidableEq

/-- Python `str()` of a value, as used by `str.format` in the matchline
serializers.  The list arm is never reached by the module (attribute lists
are joined with `','.join`, not formatted). -/
def pyStr : PyVal → List Char
  | .none => strL (r"None")
  | .int n => intStr n
  | .float f => pyFloatRepr f
  | .str s => s
  | .list _ => ['[', ']']

/-- Whether the value is Python `None`. -/
def isNone : PyVal → Bool
  | .none => true
  | _ => false

/-- interpret_field (lines 61-84): try `int(data)`, then `float(data)`,
otherwise return the data itself.  The module only ever applies it to the
strings captured by a pattern. -/
def interpret_field (data : List Char) : PyVal :=
  match pyIntParse data with
  | some n => .int n
  | none =>
    match pyFloatParse data with
    | some f => .float f
    | none => .str data

/-- `float(s)` where failure raises ValueError. -/
def pyFloatOfStr (s : List Char) : Except PyErr PFloat :=
  match pyFloatParse s with
  | some f => .ok f
  | none => .error .valueError

/-- Python float division.  Division by (finite) zero raises
ZeroDivisionError; division by an infinity yields 0.0 (signed zero is not
modelled); otherwise the exact quotient is rounded. -/
def pyDiv (a b : PFloat) : Except PyErr PFloat :=
  match b with
  | .finite q =>
    if q = qrZero then .error .zeroDivisionError
    else
      match a with
      | .finite p => .ok (roundFloat (qrDiv p q))
      | .inf => .ok (if qrIsPos q then .inf else .neginf)
      | .neginf => .ok (if qrIsPos q then .neginf else .inf)
      | .nan => .ok .nan
  | .inf =>
    match a with
    | .finite _ => .ok (.finite qrZero)
    | _ => .ok .nan
  | .neginf =>
    match a with
    | .finite _ => .ok (.finite qrZero)
    | _ => .ok .nan
  | .nan =>
    match a with
    | _ => .ok .nan

/-- Python float addition (for the sum-of-rationals extension). -/
def pfAdd : PFloat → PFloat → PFloat
  | .finite p, .finite q => roundFloat (qrAdd p q)
  | .nan, _ => .nan
  | _, .nan => .nan
  | .inf, .neginf => .nan
  | .neginf, .inf => .nan
  | .inf, _ => .inf
  | _, .inf => .inf
  | .neginf, _ => .neginf
  | _, .neginf => .neginf

/-- Whether a value is an int or a float (`type(i) in (int, float)`). -/
def isNumPy : PyVal → Bool
  | .int _ => true
  | .float _ => true
  | _ => false

/-- Python `+` on numbers, as summed by `sum(iparts)`. -/
def pyNumAdd (a b : PyVal) : PyVal :=
  match a, b with
  | .int m, .int n => .int (m + n)
  | .int m, .float f => .float (pfAdd (.finite (qrOfInt m)) f)
  | .float f, .int n => .float (pfAdd f (.finite (qrOfInt n)))
  | .float f, .float g => .float (pfAdd f g)
  | _, _ => .none

/-- interpret_field_rational (lines 104-131) with allow_additions=False,
the only form the module's line kinds invoke (`cls.field_interpreter(i)`
passes a single argument, so the parameter keeps its default).  A rational
token is evaluated as `float(num) / float(den)`, whose ZeroDivisionError on
a zero denominator propagates. -/
def interpret_field_rational_noadd (data : List Char) : Except PyErr PyVal :=
  match interpret_field data with
  | .str v =>
    match reMatchEnd ratToks v with
    | some (g0 :: g1 :: _) => do
      let a ← pyFloatOfStr g0
      let b ← pyFloatOfStr g1
      let r ← pyDiv a b
      .ok (.float r)
    | some _ => .error .typeError
    | none => .ok (.str v)
  | v => .ok v

/-- interpret_field_rational with allow_additions=True: on `+`-joined parts
each part is interpreted with allow_additions=False (as in the source's
recursive call) and summed when all are numeric. -/
def interpret_field_rational_add (data : List Char) : Except PyErr PyVal :=
  match interpret_field data with
  | .str v =>
    match reMatchEnd ratToks v with
    | some (g0 :: g1 :: _) => do
      let a ← pyFloatOfStr g0
      let b ← pyFloatOfStr g1
      let r ← pyDiv a b
      .ok (.float r)
    | some _ => .error .typeError
    | none =>
      let parts := v.splitOn '+'
      if 1 < parts.length then do
        let iparts ← parts.mapM interpret_field_rational_noadd
        if iparts.all isNumPy then .ok (iparts.foldl pyNumAdd (.int 0))
        else .ok (.str v)
      else .ok (.str v)
  | v => .ok v

/-- interpret_field_rational with its allow_additions flag. -/
def interpret_field_rational (data : List Char) (allowAdditions : Bool) :
    Except PyErr PyVal :=
  if allowAdditions then interpret_field_rational_add data
  else interpret_field_rational_noadd data

/-- `Fraction.from_float` as invoked by the serializers: exact
numerator/denominator of a float, integers pass through, infinities and
NaN raise, anything else is a TypeError. -/
def fractionFromFloatVal : PyVal → Except PyErr (ℤ × ℕ)
  | .int n => .ok (n, 1)
  | .float (.finite q) => .ok (q.num, q.den)
  | .float _ => .error .overflowError
  | _ => .error .typeError

/-- `str()` of a Fraction: the numerator, with `/denominator` unless the
denominator is 1. -/
def fractionStr (n : ℤ) (d : ℕ) : List Char :=
  if d = 1 then intStr n else intStr n ++ '/' :: natStr d

/-- The `int()` builtin on a value: ints pass, floats truncate toward zero,
strings parse, None and lists are TypeErrors. -/
def pyIntOf : PyVal → Except PyErr ℤ
  | .int n => .ok n
  | .float (.finite q) => .ok (qrTrunc q)
  | .float .nan => .error .valueError
  | .float _ => .error .overflowError
  | .str s =>
    match pyIntParse s with
    | some n => .ok n
    | none => .error .valueError
  | _ => .error .typeError

/-- `.upper()` on a value: AttributeError unless it is a string. -/
def pyUpper : PyVal → Except PyErr (List Char)
  | .str s => .ok (s.map Char.toUpper)
  | _ => .error .attributeError

/-- NOTE_NAMES (line 30). -/
def NOTE_NAMES : List (List Char) := [['C'], ['D'], ['E'], ['F'], ['G'], ['A'], ['B']]

/-- PC_DICT (lines 25-28): pitch class to (letter, modifier), naturals and
sharps only. -/
def PC_DICT (i : ℕ) : List Char × List Char :=
  match i with
  | 0 => (['C'], ['n']) | 1 => (['C'], ['#']) | 2 => (['D'], ['n']) | 3 => (['D'], ['#'])
  | 4 => (['E'], ['n']) | 5 => (['F'], ['n']) | 6 => (['F'], ['#']) | 7 => (['G'], ['n'])
  | 8 => (['G'], ['#']) | 9 => (['A'], ['n']) | 10 => (['A'], ['#']) | _ => (['B'], ['n'])

/-- The letter table of pitch_name_2_midi_PC, keyed on the lower-cased name. -/
def letterBase : List Char → Option ℤ
  | ['c'] => some 0 | ['d'] => some 2 | ['e'] => some 4 | ['f'] => some 5
  | ['g'] => some 7 | ['a'] => some 9 | ['b'] => some 11
  | _ => Option.none

/-- The modifier table of pitch_name_2_midi_PC (case-sensitive). -/
def modifierOffset : List Char → Option ℤ
  | ['b'] => some (-1)
  | ['b', 'b'] => some (-2)
  | ['#'] => some 1
  | ['x'] => some 2
  | ['#', '#'] => some 2
  | ['n'] => some 0
  | _ => Option.none

/-- pitch_name_2_midi_PC (lines 46-58): rests map to (0, 0); otherwise the
MIDI number is `(octave + 1) * 12 + base` with `base` the letter semitone
plus the modifier offset, and the pitch class is `np.mod(base, 12)`.
Missing table keys raise KeyError, `.lower()` on a non-string raises
AttributeError. -/
def pitch_name_2_midi_PC (modifier name : PyVal) (octave : ℤ) :
    Except PyErr (ℤ × ℤ) :=
  if name = .str ['r'] then .ok (0, 0)
  else do
    let ns ← (match name with
              | .str s => Except.ok s
              | _ => Except.error PyErr.attributeError)
    let base1 ← (match letterBase (lowerList ns) with
                 | some b => Except.ok b
                 | _ => Except.error PyErr.keyError)
    let off ← (match modifier with
               | .str ms =>
                 (match modifierOffset ms with
                  | some o => Except.ok o
                  | _ => Except.error PyErr.keyError)
               | _ => Except.error PyErr.keyError)
    let base := base1 + off
    .ok ((octave + 1) * 12 + base, base.emod 12)

/-- Python `str.split(',')`. -/
def splitComma (s : List Char) : List (List Char) := s.splitOn ','

/-- Record of a score note (class MatchSnote, lines 213-281). -/
structure MatchSnote where
  Anchor : PyVal
  NoteName : PyVal
  Modifier : PyVal
  Octave : ℤ
  Bar : PyVal
  Beat : PyVal
  Offset : PyVal
  Duration : PyVal
  OnsetInBeats : PyVal
  OffsetInBeats : PyVal
  ScoreAttributesList : List (List Char)
deriving DecidableEq

/-- MatchSnote.__init__ (lines 230-251): Octave is cast with `int()`;
ScoreAttributesList accepts a list, or a string which is split on commas;
anything else is a ValueError. -/
def MatchSnote.init (Anchor NoteName Modifier Octave Bar Beat Offset Duration
    OnsetInBeats OffsetInBeats ScoreAttributesList : PyVal) :
    Except PyErr MatchSnote := do
  let oct ← pyIntOf Octave
  let attrs ← (match ScoreAttributesList with
               | .list xs => Except.ok xs
               | .str s => Except.ok (splitComma s)
               | _ => Except.error PyErr.valueError)
  .ok ⟨Anchor, NoteName, Modifier, oct, Bar, Beat, Offset, Duration,
       OnsetInBeats, OffsetInBeats, attrs⟩

/-- MatchSnote.DurationSymbolic (lines 257-262): `str(Fraction.from_float)`
of a numeric duration, the string itself for a string, Python None
otherwise. -/
def MatchSnote.DurationSymbolic (r : MatchSnote) : Except PyErr PyVal :=
  match r.Duration with
  | .float f => do
    let p ← fractionFromFloatVal (.float f)
    .ok (.str (fractionStr p.1 p.2))
  | .int n => .ok (.str (fractionStr n 1))
  | .str s => .ok (.str s)
  | _ => .ok .none

/-- MatchSnote.matchline (lines 268-281): the out_pattern
`snote({Anchor},[{NoteName},{Modifier}],{Octave},{Bar}:{Beat},{Offset},
{Duration},{OnsetInBeats},{OffsetInBeats},[{ScoreAttributesList}])` with
Offset rendered through `str(Fraction.from_float(...))`, Duration through
DurationSymbolic and the attribute list comma-joined. -/
def MatchSnote.matchline (r : MatchSnote) : Except PyErr (List Char) := do
  let offp ← fractionFromFloatVal r.Offset
  let dsym ← r.DurationSymbolic
  .ok (strL (r"snote(") ++ pyStr r.Anchor
    ++ (',' :: '[' :: []) ++ pyStr r.NoteName ++ [','] ++ pyStr r.Modifier
    ++ (']' :: ',' :: []) ++ intStr r.Octave
    ++ [','] ++ pyStr r.Bar ++ [':'] ++ pyStr r.Beat
    ++ [','] ++ fractionStr offp.1 offp.2
    ++ [','] ++ pyStr dsym
    ++ [','] ++ pyStr r.OnsetInBeats
    ++ [','] ++ pyStr r.OffsetInBeats
    ++ (',' :: '[' :: []) ++ List.intercalate [','] r.ScoreAttributesList
    ++ (']' :: ')' :: []))

/-- MatchSnote.from_matchline (the inherited MatchLine.from_matchline,
lines 157-171, with MatchSnote's pattern): search, interpret every captured
group, construct. -/
def MatchSnote.from_matchline (l : List Char) : Except PyErr MatchSnote :=
  match reSearch snoteToks l with
  | some gs => do
    let vs ← gs.mapM interpret_field_rational_noadd
    match vs with
    | [a, nn, md, oc, br, bt, off, dur, onb, offb, attrs] =>
      MatchSnote.init a nn md oc br bt off dur onb offb attrs
    | _ => .error .typeError
  | none => .error .matchError

/-- Record of a performed note (class MatchPnote, lines 284-409). -/
structure MatchPnote where
  Number : PyVal
  NoteName : PyVal
  Modifier : PyVal
  Octave : ℤ
  Onset : PyVal
  Offset : PyVal
  AdjOffset : PyVal
  Velocity : ℤ
  MidiPitch : Option (ℤ × ℤ)
  version : QR
deriving DecidableEq

/-- `int(np.mod(x, 12))` for an int-or-float MIDI pitch. -/
def midiMod12 : PyVal → Except PyErr ℤ
  | .int m => .ok (m.emod 12)
  | .float (.finite q) =>
    .ok (qrFloor (qrSub q (qrMul (qrOfInt 12) (qrOfInt (qrFloor (qrDiv q (qrOfInt 12)))))))
  | _ => .error .typeError

/-- `int(x // 12 - 1)` for an int-or-float MIDI pitch. -/
def midiOctave : PyVal → Except PyErr ℤ
  | .int m => .ok (m.fdiv 12 - 1)
  | .float (.finite q) => .ok (qrFloor (qrDiv q (qrOfInt 12)) - 1)
  | _ => .error .typeError

/-- Python `==` between a MIDI-pitch value and an integer (numbers compare
by value; any other type is unequal). -/
def pyNumEqInt (v : PyVal) (n : ℤ) : Bool :=
  match v with
  | .int m => m == n
  | .float (.finite q) => q == qrOfInt n
  | _ => false

/-- MatchPnote.__init__ (lines 303-363).  Requires pitch spelling or a MIDI
pitch; validates the note letter against NOTE_NAMES; back-fills spelling
from the MIDI pitch via PC_DICT when spelling is absent; when a MIDI pitch
is supplied it must agree with the spelling mapped through
pitch_name_2_midi_PC; a missing AdjOffset defaults to Offset; Velocity is
cast with `int()`. -/
def MatchPnote.init (Number NoteName Modifier Octave Onset Offset AdjOffset
    Velocity MidiPitch : PyVal) (version : QR) : Except PyErr MatchPnote :=
  if (isNone NoteName || isNone Modifier || isNone Octave) && isNone MidiPitch then
    Except.error PyErr.valueError
  else do
    let nmo ← (if !(isNone NoteName || isNone Modifier || isNone Octave) then do
        let up ← pyUpper NoteName
        if NOTE_NAMES.contains up then do
          let oct ← pyIntOf Octave
          Except.ok (PyVal.str up, Modifier, oct)
        else Except.error PyErr.valueError
      else do
        let idx ← midiMod12 MidiPitch
        let oct ← midiOctave MidiPitch
        let pc := PC_DICT idx.toNat
        Except.ok (PyVal.str pc.1, PyVal.str pc.2, oct))
    let mp ← (if !(isNone MidiPitch) then do
        let p ← pitch_name_2_midi_PC nmo.2.1 nmo.1 nmo.2.2
        if pyNumEqInt MidiPitch p.1 then do
          let mi ← pyIntOf MidiPitch
          let mm ← midiMod12 MidiPitch
          Except.ok (some (mi, mm))
        else Except.error PyErr.valueError
      else Except.ok Option.none)
    let adj := if isNone AdjOffset then Offset else AdjOffset
    let vel ← pyIntOf Velocity
    Except.ok ⟨Number, nmo.1, nmo.2.1, nmo.2.2, Onset, Offset, adj, vel, mp, version⟩

/-- MatchPnote.matchline (lines 366-375): the out_pattern
`note({Number},[{NoteName},{Modifier}],{Octave},{Onset},{Offset},
{AdjOffset},{Velocity})`. -/
def MatchPnote.matchline (r : MatchPnote) : List Char :=
  strL (r"note(") ++ pyStr r.Number
  ++ (',' :: '[' :: []) ++ pyStr r.NoteName ++ [','] ++ pyStr r.Modifier
  ++ (']' :: ',' :: []) ++ intStr r.Octave
  ++ [','] ++ pyStr r.Onset ++ [','] ++ pyStr r.Offset
  ++ [','] ++ pyStr r.AdjOffset ++ [','] ++ intStr r.Velocity ++ [')']

/-- MatchPnote.from_matchline (lines 384-409): the 8-field pattern is tried
first; on structural failure the 7-field v1 pattern is tried with
version 1.0 and AdjOffset None; if both fail, MatchError. -/
def MatchPnote.from_matchline (l : List Char) : Except PyErr MatchPnote :=
  match reSearch pnoteToks l with
  | some gs => do
    let vs ← gs.mapM interpret_field_rational_noadd
    match vs with
    | [n, nn, md, oc, ons, off, adj, vel] =>
      MatchPnote.init n nn md oc ons off adj vel PyVal.none (qrOfInt 5)
    | _ => .error .typeError
  | none =>
    match reSearch pnoteV1Toks l with
    | some gs => do
      let vs ← gs.mapM interpret_field_rational_noadd
      match vs with
      | [n, nn, md, oc, ons, off, vel] =>
        MatchPnote.init n nn md oc ons off PyVal.none vel PyVal.none (qrOfInt 1)
      | _ => .error .typeError
    | none => .error .matchError

/-- Record of a matched score/performance pair (class MatchSnoteNote,
lines 412-489). -/
structure MatchSnoteNote where
  snote : MatchSnote
  note : MatchPnote
deriving DecidableEq

/-- MatchSnoteNote.__init__ (lines 431-441): with same_pitch_spelling (the
default) the performed note's NoteName, Modifier and Octave are overwritten
with the score note's. -/
def MatchSnoteNote.init (snote : MatchSnote) (note : MatchPnote)
    (same_pitch_spelling : Bool) : MatchSnoteNote :=
  if same_pitch_spelling then
    ⟨snote, ⟨note.Number, snote.NoteName, snote.Modifier, snote.Octave,
             note.Onset, note.Offset, note.AdjOffset, note.Velocity,
             note.MidiPitch, note.version⟩⟩
  else ⟨snote, note⟩

/-- MatchSnoteNote.matchline (lines 443-447): `{SnoteLine}-{NoteLine}.`. -/
def MatchSnoteNote.matchline (r : MatchSnoteNote) : Except PyErr (List Char) := do
  let s ← r.snote.matchline
  .ok (s ++ '-' :: r.note.matchline ++ ['.'])

/-- MatchSnoteNote.from_matchline (lines 449-484).  The v1 branch keeps the
source's bug: its pattern is two performed-note patterns, and its 15 groups
are zipped against 11 score-note names and 7 performed-note names, so the
score note is built from the first 11 groups and the performed-note
constructor is then called without its required Onset/Offset/Velocity
arguments — a TypeError. -/
def MatchSnoteNote.from_matchline (l : List Char) : Except PyErr MatchSnoteNote :=
  match reSearch snoteNoteToks l with
  | some gs => do
    let vs ← gs.mapM interpret_field_rational_noadd
    match vs with
    | [a, nn, md, oc, br, bt, off, dur, onb, offb, attrs,
       n2, nn2, md2, oc2, ons2, off2, adj2, vel2] => do
      let sn ← MatchSnote.init a nn md oc br bt off dur onb offb attrs
      let nt ← MatchPnote.init n2 nn2 md2 oc2 ons2 off2 adj2 vel2 PyVal.none (qrOfInt 5)
      .ok (MatchSnoteNote.init sn nt true)
    | _ => .error .typeError
  | none =>
    match reSearch snoteNoteV1Toks l with
    | some gs => do
      let vs ← gs.mapM interpret_field_rational_noadd
      match vs with
      | [g0, g1, g2, g3, g4, g5, g6, g7, g8, g9, g10, _, _, _, _] => do
        let _ ← MatchSnote.init g0 g1 g2 g3 g4 g5 g6 g7 g8 g9 g10
        Except.error PyErr.typeError
      | _ => .error .typeError
    | none => .error .matchError

/-- Record of a deleted score note (class MatchSnoteDeletion, lines
492-521). -/
structure MatchSnoteDeletion where
  snote : MatchSnote
deriving DecidableEq

/-- MatchSnoteDeletion.from_matchline (lines 506-518). -/
def MatchSnoteDeletion.from_matchline (l : List Char) :
    Except PyErr MatchSnoteDeletion :=
  match reSearch snoteDeletionToks l with
  | some gs => do
    let vs ← gs.mapM interpret_field_rational_noadd
    match vs with
    | [a, nn, md, oc, br, bt, off, dur, onb, offb, attrs] => do
      let sn ← MatchSnote.init a nn md oc br bt off dur onb offb attrs
      .ok ⟨sn⟩
    | _ => .error .typeError
  | none => .error .matchError

/-- MatchSnoteDeletion.matchline (lines 501-504): `{SnoteLine}-deletion.`. -/
def MatchSnoteDeletion.matchline (r : MatchSnoteDeletion) :
    Except PyErr (List Char) := do
  let s ← r.snote.matchline
  .ok (s ++ strL (r"-deletion."))

/-- Record of an inserted performed note (class MatchInsertionNote, lines
524-550).  The source also copies the note's fields onto the wrapper
object; the claims concern only the contained note. -/
structure MatchInsertionNote where
  note : MatchPnote
deriving DecidableEq

/-- MatchInsertionNote.from_matchline (lines 540-550). -/
def MatchInsertionNote.from_matchline (l : List Char) :
    Except PyErr MatchInsertionNote :=
  match reSearch insertionToks l with
  | some gs => do
    let vs ← gs.mapM interpret_field_rational_noadd
    match vs with
    | [n, nn, md, oc, ons, off, adj, vel] => do
      let nt ← MatchPnote.init n nn md oc ons off adj vel PyVal.none (qrOfInt 5)
      .ok ⟨nt⟩
    | _ => .error .typeError
  | none => .error .matchError

/-- MatchInsertionNote.matchline (lines 535-538): `insertion-{NoteLine}.`. -/
def MatchInsertionNote.matchline (r : MatchInsertionNote) : List Char :=
  strL (r"insertion-") ++ r.note.matchline ++ ['.']

/-- Record of a sustain-pedal event (class MatchSustainPedal, lines
553-571). -/
structure MatchSustainPedal where
  Time : PyVal
  Value : PyVal
deriving DecidableEq

/-- MatchSustainPedal.from_matchline (the inherited MatchLine.from_matchline,
lines 157-171, with MatchSustainPedal's pattern). -/
def MatchSustainPedal.from_matchline (l : List Char) :
    Except PyErr MatchSustainPedal :=
  match reSearch sustainToks l with
  | some gs => do
    let vs ← gs.mapM interpret_field_rational_noadd
    match vs with
    | [t, v] => .ok ⟨t, v⟩
    | _ => .error .typeError
  | none => .error .matchError

/-- MatchSustainPedal.matchline (lines 566-571): `sustain({Time},{Value}).` -/
def MatchSustainPedal.matchline (r : MatchSustainPedal) : List Char :=
  strL (r"sustain(") ++ pyStr r.Time ++ [','] ++ pyStr r.Value ++ strL (r").")

/-- Record of a soft-pedal event (class MatchSoftPedal, lines 574-592). -/
structure MatchSoftPedal where
  Time : PyVal
  Value : PyVal
deriving DecidableEq

/-- MatchSoftPedal.from_matchline (inherited generic, with MatchSoftPedal's
pattern). -/
def MatchSoftPedal.from_matchline (l : List Char) : Except PyErr MatchSoftPedal :=
  match reSearch softToks l with
  | some gs => do
    let vs ← gs.mapM interpret_field_rational_noadd
    match vs with
    | [t, v] => .ok ⟨t, v⟩
    | _ => .error .typeError
  | none => .error .matchError

/-- MatchSoftPedal.matchline (lines 587-592): `soft({Time},{Value}).` -/
def MatchSoftPedal.matchline (r : MatchSoftPedal) : List Char :=
  strL (r"soft(") ++ pyStr r.Time ++ [','] ++ pyStr r.Value ++ strL (r").")

/-- Record of an info line (class MatchInfo, lines 174-188). -/
structure MatchInfo where
  Attribute : PyVal
  Value : PyVal
deriving DecidableEq

/-- MatchInfo.from_matchline (inherited generic, with MatchInfo's pattern). -/
def MatchInfo.from_matchline (l : List Char) : Except PyErr MatchInfo :=
  match reSearch infoToks l with
  | some gs => do
    let vs ← gs.mapM interpret_field_rational_noadd
    match vs with
    | [a, v] => .ok ⟨a, v⟩
    | _ => .error .typeError
  | none => .error .matchError

/-- MatchInfo.matchline (lines 184-188): `info({Attribute},{Value}).` -/
def MatchInfo.matchline (r : MatchInfo) : List Char :=
  strL (r"info(") ++ pyStr r.Attribute ++ [','] ++ pyStr r.Value ++ strL (r").")

/-- Record of a meta line (class MatchMeta, lines 191-210). -/
structure MatchMeta where
  Attribute : PyVal
  Value : PyVal
  Bar : PyVal
  TimeInBeats : PyVal
deriving DecidableEq

/-- MatchMeta.from_matchline (inherited generic, with MatchMeta's pattern). -/
def MatchMeta.from_matchline (l : List Char) : Except PyErr MatchMeta :=
  match reSearch metaToks l with
  | some gs => do
    let vs ← gs.mapM interpret_field_rational_noadd
    match vs with
    | [a, v, b, t] => .ok ⟨a, v, b, t⟩
    | _ => .error .typeError
  | none => .error .matchError

/-- MatchMeta.matchline (lines 204-210):
`meta({Attribute},{Value},{Bar},{TimeInBeats}).` -/
def MatchMeta.matchline (r : MatchMeta) : List Char :=
  strL (r"meta(") ++ pyStr r.Attribute ++ [','] ++ pyStr r.Value ++ [','] ++
  pyStr r.Bar ++ [','] ++ pyStr r.TimeInBeats ++ strL (r").")

/-- The kinds of record `parse_matchline` can return. -/
inductive MLRecord where
  | snoteNote (r : MatchSnoteNote)
  | snoteDeletion (r : MatchSnoteDeletion)
  | insertion (r : MatchInsertionNote)
  | sustain (r : MatchSustainPedal)
  | soft (r : MatchSoftPedal)
  | info (r : MatchInfo)
  | meta (r : MatchMeta)
deriving DecidableEq

/-- The ordered from_matchline_methods list of parse_matchline
(lines 655-662). -/
def from_matchline_methods : List (List Char → Except PyErr MLRecord) :=
  [fun l => (MatchSnoteNote.from_matchline l).map MLRecord.snoteNote,
   fun l => (MatchSnoteDeletion.from_matchline l).map MLRecord.snoteDeletion,
   fun l => (MatchInsertionNote.from_matchline l).map MLRecord.insertion,
   fun l => (MatchSustainPedal.from_matchline l).map MLRecord.sustain,
   fun l => (MatchSoftPedal.from_matchline l).map MLRecord.soft,
   fun l => (MatchInfo.from_matchline l).map MLRecord.info,
   fun l => (MatchMeta.from_matchline l).map MLRecord.meta]

/-- The try/except loop of parse_matchline (lines 663-671): a MatchError
moves on to the next line kind, any other exception propagates, and
`Option.none` models the `False` returned when no kind matched. -/
def dispatchLoop : List (List Char → Except PyErr MLRecord) → List Char →
    Except PyErr (Option MLRecord)
  | [], _ => .ok Option.none
  | f :: fs, l =>
    match f l with
    | .ok r => .ok (some r)
    | .error .matchError => dispatchLoop fs l
    | .error e => .error e

/-- parse_matchline (lines 627-671). -/
def parse_matchline (l : List Char) : Except PyErr (Option MLRecord) :=
  dispatchLoop from_matchline_methods l

/-- The matchline property of a dispatched record. -/
def MLRecord.matchline : MLRecord → Except PyErr (List Char)
  | .snoteNote r => r.matchline
  | .snoteDeletion r => r.matchline
  | .insertion r => .ok r.matchline
  | .sustain r => .ok r.matchline
  | .soft r => .ok r.matchline
  | .info r => .ok r.matchline
  | .meta r => .ok r.matchline

/-- Parse a line with the dispatcher and serialize the resulting record
(if any) with its matchline property. -/
def parseAndSerialize (l : List Char) : Except PyErr (Option (List Char)) :=
  match parse_matchline l with
  | .ok (some r) => (r.matchline).map some
  | .ok Option.none => .ok Option.none
  | .error e => .error e

/-- §6 example: the standalone score-note line. -/
def exSnoteLine : List Char :=
  strL (r"snote(1-1,[E,n],4,0:1,0,1/4,-1.0,0.0,[staff1])")

/-- §6 example: the standalone 8-field performed-note line. -/
def exNoteLine : List Char := strL (r"note(0,[E,n],4,471720,472397,472397,49)")

/-- §6 example: the standalone legacy 7-field performed-note line. -/
def exOldNoteLine : List Char := strL (r"note(0,[E,n],4,471720,472397,49)")

/-- §6 example: the paired score/performance line. -/
def exSnoteNoteLine : List Char :=
  strL (r"snote(1-1,[E,n],4,0:1,0,1/4,-1.0,0.0,[staff1])-note(0,[E,n],4,471720,472397,472397,49).")

/-- §6 example: the deletion line. -/
def exSnoteDeletionLine : List Char :=
  strL (r"snote(1-1,[E,n],4,0:1,0,1/4,-1.0,0.0,[staff1])-deletion.")

/-- §6 example: the insertion line. -/
def exInsertionLine : List Char :=
  strL (r"insertion-note(0,[E,n],4,471720,472397,472397,49).")

/-- §6 example: the info line. -/
def exInfoLine : List Char := strL (r"info(matchFileVersion,4.0).")

/-- §6 example: the meta line. -/
def exMetaLine : List Char := strL (r"meta(keySignature,C Maj/A min,0,-1.0).")

/-- §6 example: the sustain-pedal line. -/
def exSustainLine : List Char := strL (r"sustain(779,59).")

/-- A legacy paired line: the §6 score-note part, `-`, and the 7-field
performed-note part. -/
def exLegacyPairedLine : List Char :=
  strL (r"snote(1-1,[E,n],4,0:1,0,1/4,-1.0,0.0,[staff1])-note(0,[E,n],4,471720,472397,49).")

/-- An insertion line whose performed note carries the invalid letter H. -/
def exBadLetterInsertionLine : List Char :=
  strL (r"insertion-note(0,[H,n],4,1,2,3,49).")

/-- An insertion line whose note-name field interprets as the integer 5. -/
def exIntNameInsertionLine : List Char :=
  strL (r"insertion-note(0,[5,n],4,1,2,3,49).")

/-- An info line whose value token is a sum of rationals. -/
def exPlusInfoLine : List Char := strL (r"info(slur,1/2+1/4).")

/-- The §6 score-note line with Offset literal 1/10 instead of 0. -/
def exSnoteTenthLine : List Char :=
  strL (r"snote(1-1,[E,n],4,0:1,1/10,1/4,-1.0,0.0,[staff1])")

/-- Serialization of the parse of the 1/10 line: the Offset float renders as
the exact binary fraction of the double nearest to 1/10. -/
def exSnoteTenthRendered : List Char :=
  strL (r"snote(1-1,[E,n],4,0:1,3602879701896397/36028797018963968,1/4,-1.0,0.0,[staff1])")

/-- Whether a dispatcher outcome is a propagated structural MatchError. -/
def resultIsStructuralError : Except PyErr (Option MLRecord) → Bool
  | .error .matchError => true
  | _ => false

/-- Whether an Except is a success. -/
def exceptIsOk {α : Type} : Except PyErr α → Bool
  | .ok _ => true
  | .error _ => false

/-- The rational token `a/b` in decimal digits. -/
def fracTok (a b : ℕ) : List Char := natStr a ++ '/' :: natStr b

/-- A score-note record with the §6 example's concrete fields and a given
Duration value, for stating the Duration-rendering property. -/
def snoteWithDuration (d : PyVal) : MatchSnote :=
  ⟨.str (strL (r"1-1")), .str ['E'], .str ['n'], 4, .int 0, .int 1, .int 0, d,
   .float (.finite (qrOfInt (-1))), .float (.finite qrZero), [strL (r"staff1")]⟩

/-- What one pattern token consumes: every consumed character is accepted by
its matcher, a one-quantified token consumes exactly one character, and a
plus-quantified token consumes at least one. -/
def TokSeg (t : Tok) (seg : List Char) : Prop :=
  (∀ c ∈ seg, cmMatch t.cm c = true)
  ∧ (t.q = .one → seg.length = 1)
  ∧ (t.q = .plus → seg ≠ [])

/-- What a token sequence consumes and captures: a decomposition of the
consumed text into per-token segments, with the segments of capturing
tokens collected in order. -/
def Consumes : List Tok → List Char → List (List Char) → Prop
  | [], s, caps => s = [] ∧ caps = []
  | t :: ts, s, caps =>
    ∃ seg rest caps2, s = seg ++ rest ∧ TokSeg t seg
      ∧ caps = (if t.cap then seg :: caps2 else caps2) ∧ Consumes ts rest caps2

theorem takeRun_sound (m : Char → Bool) :
    ∀ s : List Char, s = (takeRun m s).1 ++ (takeRun m s).2
      ∧ ∀ c ∈ (takeRun m s).1, m c = true := by
  intro s
  induction s with
  | nil => exact ⟨rfl, by intro c hc; cases hc⟩
  | cons c cs ih =>
    by_cases h : m c = true
    · simp only [takeRun, h, if_true]
      refine ⟨by simpa using ih.1, ?_⟩
      intro d hd
      rcases List.mem_cons.mp hd with rfl | hd
      · exact h
      · exact ih.2 d hd
    · simp only [takeRun, h, if_false]
      exact ⟨rfl, by intro d hd; cases hd⟩

theorem takeRun_all (m : Char → Bool) :
    ∀ s : List Char, (∀ c ∈ s, m c = true) → takeRun m s = (s, []) := by
  intro s h
  induction s with
  | nil => rfl
  | cons c cs ih =>
    have hc : m c = true := h c (List.mem_cons_self c cs)
    have ih2 := ih (fun d hd => h d (List.mem_cons_of_mem c hd))
    simp only [takeRun, hc, if_true, ih2]

theorem takeRun_append (m : Char → Bool) (t : List Char) (x : Char) (r : List Char)
    (ht : ∀ c ∈ t, m c = true) (hx : m x = false) :
    takeRun m (t ++ x :: r) = (t, x :: r) := by
  induction t with
  | nil => simp [takeRun, hx]
  | cons c cs ih =>
    have hc : m c = true := ht c (List.mem_cons_self c cs)
    have ih2 := ih (fun d hd => ht d (List.mem_cons_of_mem c hd))
    simp only [List.cons_append, takeRun, hc, if_true, List.append_eq, ih2]

theorem tryLens_sound {R : Type} (r rest : List Char) (k : List Char → List Char → Option R)
    (mn : ℕ) :
    ∀ (j : ℕ) (x : R), tryLens r rest k mn j = some x →
      ∃ j2, j2 ≤ j ∧ mn ≤ j2 ∧ k (r.take j2) (r.drop j2 ++ rest) = some x := by
  intro j
  induction j with
  | zero =>
    intro x h
    unfold tryLens at h
    by_cases hm : 0 < mn
    · simp [hm] at h
    · refine ⟨0, le_refl 0, by omega, ?_⟩
      simpa [hm] using h
  | succ j ih =>
    intro x h
    unfold tryLens at h
    by_cases hm : j + 1 < mn
    · simp [hm] at h
    · rw [if_neg hm] at h
      cases hk : k (r.take (j + 1)) (r.drop (j + 1) ++ rest) with
      | some y =>
        refine ⟨j + 1, le_refl _, by omega, hk.trans ?_⟩
        rw [hk] at h
        exact h
      | none =>
        rw [hk] at h
        obtain ⟨j2, hle, hmn, hx2⟩ := ih x h
        exact ⟨j2, by omega, hmn, hx2⟩

theorem runTok_sound {R : Type} (t : Tok) (s : List Char)
    (k : List Char → List Char → Option R) (x : R) (h : runTok t s k = some x) :
    ∃ seg rest, s = seg ++ rest ∧ TokSeg t seg ∧ k seg rest = some x := by
  cases hq : t.q with
  | one =>
    simp only [runTok, hq] at h
    cases s with
    | nil => cases h
    | cons c cs =>
      by_cases hc : cmMatch t.cm c = true
      · simp only [hc, if_true] at h
        refine ⟨[c], cs, rfl, ⟨?_, fun _ => rfl, by simp [hq]⟩, h⟩
        intro d hd
        rcases List.mem_singleton.mp hd with rfl
        exact hc
      · simp only [hc, if_false] at h
        cases h
  | star =>
    simp only [runTok, hq] at h
    obtain ⟨j2, hle, _, hk⟩ := tryLens_sound _ _ k 0 _ x h
    have hs := takeRun_sound (cmMatch t.cm) s
    refine ⟨(takeRun (cmMatch t.cm) s).1.take j2,
            (takeRun (cmMatch t.cm) s).1.drop j2 ++ (takeRun (cmMatch t.cm) s).2,
            ?_, ⟨?_, ?_, ?_⟩, hk⟩
    · conv_lhs => rw [hs.1]
      rw [← List.append_assoc, List.take_append_drop]
    · intro d hd
      exact hs.2 d (List.mem_of_mem_take hd)
    · intro hone; rw [hone] at hq; cases hq
    · intro hplus; rw [hplus] at hq; cases hq
  | plus =>
    simp only [runTok, hq] at h
    obtain ⟨j2, hle, hmn, hk⟩ := tryLens_sound _ _ k 1 _ x h
    have hlen : j2 ≤ (takeRun (cmMatch t.cm) s).1.length := hle
    have hs := takeRun_sound (cmMatch t.cm) s
    refine ⟨(takeRun (cmMatch t.cm) s).1.take j2,
            (takeRun (cmMatch t.cm) s).1.drop j2 ++ (takeRun (cmMatch t.cm) s).2,
            ?_, ⟨?_, ?_, ?_⟩, hk⟩
    · conv_lhs => rw [hs.1]
      rw [← List.append_assoc, List.take_append_drop]
    · intro d hd
      exact hs.2 d (List.mem_of_mem_take hd)
    · intro hone; rw [hone] at hq; cases hq
    · intro _ hnil
      have hlt : ((takeRun (cmMatch t.cm) s).1.take j2).length = j2 :=
        (List.length_take j2 _).trans (min_eq_left hlen)
      rw [hnil] at hlt
      simp at hlt
      omega

theorem runToks_sound {R : Type} :
    ∀ (toks : List Tok) (s : List Char) (k : List (List Char) → List Char → Option R)
      (x : R), runToks toks s k = some x →
      ∃ pre rest caps, s = pre ++ rest ∧ Consumes toks pre caps ∧ k caps rest = some x := by
  intro toks
  induction toks with
  | nil =>
    intro s k x h
    exact ⟨[], s, [], rfl, ⟨rfl, rfl⟩, h⟩
  | cons t ts ih =>
    intro s k x h
    simp only [runToks] at h
    obtain ⟨seg, rest1, hsplit, hseg, hk⟩ := runTok_sound t s _ x h
    obtain ⟨pre2, rest2, caps2, hsplit2, hcons, hk2⟩ := ih rest1 _ x hk
    refine ⟨seg ++ pre2, rest2, (if t.cap then seg :: caps2 else caps2), ?_, ?_, hk2⟩
    · rw [hsplit, hsplit2, List.append_assoc]
    · exact ⟨seg, pre2, caps2, rfl, hseg, rfl, hcons⟩

theorem reMatchEnd_sound (toks : List Tok) (s : List Char) (caps : List (List Char))
    (h : reMatchEnd toks s = some caps) : Consumes toks s caps := by
  unfold reMatchEnd at h
  obtain ⟨pre, rest, caps2, hsplit, hcons, hk⟩ := runToks_sound toks s _ caps h
  by_cases hr : rest = []
  · rw [if_pos hr] at hk
    cases hk
    rw [hsplit, hr, List.append_nil]
    exact hcons
  · rw [if_neg hr] at hk
    cases hk

theorem consumes_ratToks (s : List Char) (caps : List (List Char))
    (h : Consumes ratToks s caps) :
    ∃ da db, caps = [da, db] ∧ s = da ++ '/' :: db ∧ da ≠ [] ∧ db ≠ []
      ∧ (∀ c ∈ da, isDigitB c = true) ∧ (∀ c ∈ db, isDigitB c = true) := by
  obtain ⟨da, r1, c1, hs1, hseg1, hcap1, h1⟩ := h
  obtain ⟨sl, r2, c2, hs2, hseg2, hcap2, h2⟩ := h1
  obtain ⟨db, r3, c3, hs3, hseg3, hcap3, h3⟩ := h2
  obtain ⟨hr3, hc3⟩ := h3
  have hsl : sl = ['/'] := by
    obtain ⟨hm2, hone2, _⟩ := hseg2
    have hlen := hone2 rfl
    cases sl with
    | nil => cases hlen
    | cons c tl =>
      cases tl with
      | nil =>
        have := hm2 c (List.mem_cons_self c [])
        simp only [cmMatch] at this
        have hc : '/' = c := by
          exact eq_of_beq this
        rw [← hc]
      | cons d tl2 => cases hlen
  have hda : ∀ c ∈ da, isDigitB c = true := by
    intro c hc
    have := hseg1.1 c hc
    simpa [cmMatch] using this
  have hdb : ∀ c ∈ db, isDigitB c = true := by
    intro c hc
    have := hseg3.1 c hc
    simpa [cmMatch] using this
  refine ⟨da, db, ?_, ?_, hseg1.2.2 rfl, hseg3.2.2 rfl, hda, hdb⟩
  · rw [hcap1, hcap2, hcap3, hc3]
    rfl
  · rw [hs1, hs2, hs3, hsl, hr3, List.append_nil]
    rfl

theorem digitChar_mem (m : ℕ) :
    digitChar m ∈ ['0', '1', '2', '3', '4', '5', '6', '7', '8', '9'] := by
  rcases m with _|_|_|_|_|_|_|_|_|m
  case succ.succ.succ.succ.succ.succ.succ.succ.succ =>
    exact (by decide : ('9' : Char) ∈ ['0', '1', '2', '3', '4', '5', '6', '7', '8', '9'])
  all_goals decide

theorem digitChar_props (m : ℕ) :
    isDigitB (digitChar m) = true ∧ isWs (digitChar m) = false
    ∧ digitChar m ≠ '-' ∧ digitChar m ≠ '+' ∧ digitChar m ≠ '.'
    ∧ digitChar m ≠ '/' ∧ digitChar m ≠ 'e' ∧ digitChar m ≠ 'E'
    ∧ digitChar m ≠ ',' := by
  have hmem := digitChar_mem m
  generalize hc : digitChar m = c at hmem ⊢
  fin_cases hmem <;> decide

theorem digitVal_digitChar (m : ℕ) (h : m < 10) : digitVal (digitChar m) = m := by
  interval_cases m <;> rfl

theorem natStrFuel_ne_nil (fuel n : ℕ) : natStrFuel fuel n ≠ [] := by
  cases fuel with
  | zero => simp [natStrFuel]
  | succ fuel =>
    simp only [natStrFuel]
    by_cases h : n < 10
    · simp [h]
    · simp [h]

theorem natStr_ne_nil (n : ℕ) : natStr n ≠ [] := natStrFuel_ne_nil n n

theorem natStrFuel_digits (fuel : ℕ) :
    ∀ n c, c ∈ natStrFuel fuel n → ∃ m, c = digitChar m := by
  induction fuel with
  | zero =>
    intro n c hc
    rcases List.mem_singleton.mp hc with rfl
    exact ⟨n, rfl⟩
  | succ fuel ih =>
    intro n c hc
    simp only [natStrFuel] at hc
    by_cases h : n < 10
    · rw [if_pos h] at hc
      rcases List.mem_singleton.mp hc with rfl
      exact ⟨n, rfl⟩
    · rw [if_neg h] at hc
      rcases List.mem_append.mp hc with hc | hc
      · exact ih (n / 10) c hc
      · rcases List.mem_singleton.mp hc with rfl
        exact ⟨n % 10, rfl⟩

theorem natStr_digits (n : ℕ) (c : Char) (hc : c ∈ natStr n) : ∃ m, c = digitChar m :=
  natStrFuel_digits n n c hc

theorem digitsVal_append_one (xs : List Char) (c : Char) :
    digitsVal (xs ++ [c]) = 10 * digitsVal xs + digitVal c := by
  unfold digitsVal
  rw [List.foldl_append]
  simp [Nat.mul_comm]

theorem digitsVal_natStrFuel (fuel : ℕ) :
    ∀ n, n ≤ fuel → digitsVal (natStrFuel fuel n) = n := by
  induction fuel with
  | zero =>
    intro n hn
    have : n = 0 := Nat.le_zero.mp hn
    subst this
    rfl
  | succ fuel ih =>
    intro n hn
    simp only [natStrFuel]
    by_cases h : n < 10
    · rw [if_pos h]
      show digitsVal [digitChar n] = n
      unfold digitsVal
      simp [digitVal_digitChar n h]
    · rw [if_neg h]
      rw [digitsVal_append_one]
      have hdiv : n / 10 ≤ fuel := by
        have := Nat.div_lt_self (by omega : 0 < n) (by omega : 1 < 10)
        omega
      rw [ih (n / 10) hdiv, digitVal_digitChar (n % 10) (Nat.mod_lt n (by omega))]
      omega

theorem digitsVal_natStr (n : ℕ) : digitsVal (natStr n) = n :=
  digitsVal_natStrFuel n n (le_refl n)

theorem isDigitB_props (c : Char) (h : isDigitB c = true) :
    isWs c = false ∧ c ≠ '-' ∧ c ≠ '+' ∧ c ≠ '.' ∧ c ≠ '/' ∧ c ≠ 'e' ∧ c ≠ 'E' := by
  have h' : '0' ≤ c ∧ c ≤ '9' := by simpa [isDigitB] using h
  refine ⟨?_, ?_, ?_, ?_, ?_, ?_, ?_⟩
  · simp only [isWs, Bool.or_eq_false_iff]
    refine ⟨⟨⟨?_, ?_⟩, ?_⟩, ?_⟩ <;>
      (rw [beq_eq_false_iff_ne]; rintro rfl; revert h'; decide)
  all_goals (rintro rfl; revert h'; decide)

theorem dropWhile_eq_self_of (p : Char → Bool) (s : List Char)
    (h : ∀ c ∈ s, p c = false) : s.dropWhile p = s := by
  cases s with
  | nil => rfl
  | cons c cs =>
    rw [List.dropWhile_cons]
    simp [h c (List.mem_cons_self c cs)]

theorem trimWs_id (s : List Char) (h : ∀ c ∈ s, isWs c = false) : trimWs s = s := by
  unfold trimWs
  rw [dropWhile_eq_self_of _ _ h,
      dropWhile_eq_self_of _ _ (fun c hc => h c (List.mem_reverse.mp hc)),
      List.reverse_reverse]

theorem stripSign_nosign (c : Char) (t : List Char) (h1 : c ≠ '-') (h2 : c ≠ '+') :
    stripSign (c :: t) = (false, c :: t) := by
  simp [stripSign, h1, h2]

theorem pyIntParse_digits_slash (da db : List Char) (hne : da ≠ [])
    (hda : ∀ c ∈ da, isDigitB c = true) (hdb : ∀ c ∈ db, isDigitB c = true) :
    pyIntParse (da ++ '/' :: db) = none := by
  have hch : ∀ c ∈ da ++ '/' :: db, isWs c = false := by
    intro c hc
    rcases List.mem_append.mp hc with hc | hc
    · exact (isDigitB_props c (hda c hc)).1
    · rcases List.mem_cons.mp hc with rfl | hc
      · decide
      · exact (isDigitB_props c (hdb c hc)).1
  obtain ⟨c0, da', rfl⟩ : ∃ c0 da', da = c0 :: da' := by
    cases da with
    | nil => exact absurd rfl hne
    | cons a b => exact ⟨a, b, rfl⟩
  have hp := isDigitB_props c0 (hda c0 (List.mem_cons_self _ _))
  simp only [pyIntParse]
  rw [trimWs_id _ hch, List.cons_append, stripSign_nosign _ _ hp.2.1 hp.2.2.1,
      show (c0 :: (da' ++ '/' :: db)) = (c0 :: da') ++ '/' :: db from rfl,
      takeRun_append isDigitB (c0 :: da') '/' db hda (by decide)]
  simp

theorem pyFloatParse_digits_slash (da db : List Char) (hne : da ≠ [])
    (hda : ∀ c ∈ da, isDigitB c = true) (hdb : ∀ c ∈ db, isDigitB c = true) :
    pyFloatParse (da ++ '/' :: db) = none := by
  have hch : ∀ c ∈ da ++ '/' :: db, isWs c = false := by
    intro c hc
    rcases List.mem_append.mp hc with hc | hc
    · exact (isDigitB_props c (hda c hc)).1
    · rcases List.mem_cons.mp hc with rfl | hc
      · decide
      · exact (isDigitB_props c (hdb c hc)).1
  obtain ⟨c0, da', rfl⟩ : ∃ c0 da', da = c0 :: da' := by
    cases da with
    | nil => exact absurd rfl hne
    | cons a b => exact ⟨a, b, rfl⟩
  have hp := isDigitB_props c0 (hda c0 (List.mem_cons_self _ _))
  simp only [pyFloatParse]
  rw [trimWs_id _ hch, List.cons_append, stripSign_nosign _ _ hp.2.1 hp.2.2.1,
      show (c0 :: (da' ++ '/' :: db)) = (c0 :: da') ++ '/' :: db from rfl,
      takeRun_append isDigitB (c0 :: da') '/' db hda (by decide)]
  simp

theorem pyFloatParse_digits (ds : List Char) (hne : ds ≠ [])
    (hd : ∀ c ∈ ds, isDigitB c = true) :
    pyFloatParse ds = some (mkPFloat false ds [] 0) := by
  have hch : ∀ c ∈ ds, isWs c = false := fun c hc => (isDigitB_props c (hd c hc)).1
  obtain ⟨c0, ds', rfl⟩ : ∃ c0 ds', ds = c0 :: ds' := by
    cases ds with
    | nil => exact absurd rfl hne
    | cons a b => exact ⟨a, b, rfl⟩
  have hp := isDigitB_props c0 (hd c0 (List.mem_cons_self _ _))
  simp only [pyFloatParse]
  rw [trimWs_id _ hch, stripSign_nosign _ _ hp.2.1 hp.2.2.1,
      takeRun_all isDigitB (c0 :: ds') hd]
  simp

theorem pyFloatOfStr_digits (ds : List Char) (hne : ds ≠ [])
    (hd : ∀ c ∈ ds, isDigitB c = true) :
    pyFloatOfStr ds = .ok (mkPFloat false ds [] 0) := by
  unfold pyFloatOfStr
  rw [pyFloatParse_digits ds hne hd]

theorem pyDiv_err (a b : PFloat) (e : PyErr) (h : pyDiv a b = .error e) :
    e = .zeroDivisionError := by
  cases b with
  | finite q =>
    simp only [pyDiv] at h
    by_cases hq : q = qrZero
    · rw [if_pos hq] at h
      cases h
      rfl
    · rw [if_neg hq] at h
      cases a <;> simp at h
  | inf => simp only [pyDiv] at h; cases a <;> simp at h
  | neginf => simp only [pyDiv] at h; cases a <;> simp at h
  | nan => simp only [pyDiv] at h; cases a <;> simp at h

theorem exceptBind_ok {a b : Type} (x : a) (f : a → Except PyErr b) :
    (Except.ok x >>= f) = f x := rfl

theorem exceptBind_err {a b : Type} (e : PyErr) (f : a → Except PyErr b) :
    ((Except.error e : Except PyErr a) >>= f) = Except.error e := rfl

theorem interpret_noadd_err (s : List Char) (e : PyErr)
    (h : interpret_field_rational_noadd s = .error e) : e = .zeroDivisionError := by
  unfold interpret_field_rational_noadd at h
  cases hi : interpret_field s with
  | str v =>
    rw [hi] at h
    dsimp only [] at h
    cases hm : reMatchEnd ratToks v with
    | none =>
      rw [hm] at h
      cases h
    | some caps =>
      rw [hm] at h
      obtain ⟨da, db, hcaps, hsplit, hna, hnb, hda, hdb⟩ :=
        consumes_ratToks v caps (reMatchEnd_sound _ _ _ hm)
      subst hcaps
      dsimp only [] at h
      rw [pyFloatOfStr_digits da hna hda] at h
      rw [pyFloatOfStr_digits db hnb hdb] at h
      simp only [exceptBind_ok] at h
      cases hd : pyDiv (mkPFloat false da [] 0) (mkPFloat false db [] 0) with
      | ok r =>
        rw [hd, exceptBind_ok] at h
        simp at h
      | error e2 =>
        rw [hd] at h
        simp only [exceptBind_err] at h
        cases h
        exact pyDiv_err _ _ _ hd
  | none => rw [hi] at h; cases h
  | int n => rw [hi] at h; cases h
  | float f => rw [hi] at h; cases h
  | list xs => rw [hi] at h; cases h

theorem interpret_plus_str (s : List Char) (hplus : '+' ∈ s)
    (hi : pyIntParse s = none) (hf : pyFloatParse s = none) :
    interpret_field_rational s false = .ok (.str s) := by
  have hif : interpret_field s = .str s := by
    unfold interpret_field
    rw [hi, hf]
  show interpret_field_rational_noadd s = .ok (.str s)
  unfold interpret_field_rational_noadd
  rw [hif]
  dsimp only []
  cases hm : reMatchEnd ratToks s with
  | none => rfl
  | some caps =>
    exfalso
    obtain ⟨da, db, _, hsplit, _, _, hda, hdb⟩ :=
      consumes_ratToks s caps (reMatchEnd_sound _ _ _ hm)
    rw [hsplit] at hplus
    rcases List.mem_append.mp hplus with hc | hc
    · exact absurd (hda _ hc) (by decide)
    · rcases List.mem_cons.mp hc with he | hc
      · exact absurd he (by decide)
      · exact absurd (hdb _ hc) (by decide)

theorem tryLens_full {R : Type} (r rest : List Char) (k : List Char → List Char → Option R)
    (mn : ℕ) (x : R) (hmn : mn ≤ r.length) (hk : k r rest = some x) :
    tryLens r rest k mn r.length = some x := by
  rcases hr : r.length with _ | j
  · rw [hr] at hmn
    unfold tryLens
    rw [if_neg (by omega : ¬ 0 < mn)]
    have hnil : r = [] := List.length_eq_zero.mp hr
    rw [hnil]
    simpa [hnil] using hk
  · rw [hr] at hmn
    unfold tryLens
    rw [if_neg (by omega : ¬ j + 1 < mn)]
    rw [List.take_of_length_le (by omega : r.length ≤ j + 1),
        List.drop_eq_nil_of_le (by omega : r.length ≤ j + 1)]
    simp [hk]

theorem reMatchEnd_fracTok (da db : List Char) (hna : da ≠ []) (hnb : db ≠ [])
    (hda : ∀ c ∈ da, isDigitB c = true) (hdb : ∀ c ∈ db, isDigitB c = true) :
    reMatchEnd ratToks (da ++ '/' :: db) = some [da, db] := by
  have hda' : ∀ c ∈ da, cmMatch CM.digit c = true := hda
  have hdb' : ∀ c ∈ db, cmMatch CM.digit c = true := hdb
  unfold reMatchEnd ratToks
  simp only [runToks, runTok, capPlus, lt1]
  rw [takeRun_append (cmMatch CM.digit) da '/' db hda' (by decide)]
  dsimp only []
  refine tryLens_full da ('/' :: db) _ 1 [da, db] ?_ ?_
  · cases da with
    | nil => exact absurd rfl hna
    | cons a b => simp
  · dsimp only []
    rw [if_pos (by decide : cmMatch (CM.lit '/') '/' = true)]
    rw [takeRun_all (cmMatch CM.digit) db hdb']
    dsimp only []
    refine tryLens_full db [] _ 1 [da, db] ?_ ?_
    · cases db with
      | nil => exact absurd rfl hnb
      | cons a b => simp
    · simp

theorem qrMk_den_one (n : ℤ) : qrMk n 1 = ⟨n, 1⟩ := by
  unfold qrMk
  rw [if_neg (one_ne_zero)]
  simp [Nat.gcd_one_right, Int.tdiv_one]

theorem qScale10_zero (q : QR) : qScale10 q 0 = qrMk q.num (q.den : ℤ) := by
  unfold qScale10 qrMul qrOfInt ipow
  simp

theorem mkPFloat_digits (ds : List Char) :
    mkPFloat false ds [] 0 = roundFloat ⟨(digitsVal ds : ℤ), 1⟩ := by
  unfold mkPFloat
  have h1 : qrDiv (qrOfNat (digitsVal ([] : List Char)))
      (qrOfInt (ipow 10 (List.length ([] : List Char)))) = qrZero := by decide
  have h2 : qrAdd (qrOfNat (digitsVal ds)) qrZero = ⟨(digitsVal ds : ℤ), 1⟩ := by
    unfold qrAdd qrOfNat qrZero
    simpa using qrMk_den_one (digitsVal ds : ℤ)
  rw [h1, h2]
  dsimp only []
  rw [qScale10_zero]
  simpa using congrArg roundFloat (qrMk_den_one (digitsVal ds : ℤ))

theorem natStr_isDigit (n : ℕ) : ∀ c ∈ natStr n, isDigitB c = true := by
  intro c hc
  obtain ⟨m, rfl⟩ := natStr_digits n c hc
  exact (digitChar_props m).1

theorem interpret_fracTok (a b : ℕ) (hb0 : 0 < b)
    (hra : roundFloat (qrOfNat a) = .finite (qrOfNat a))
    (hrb : roundFloat (qrOfNat b) = .finite (qrOfNat b))
    (hq : roundFloat (qrMk (a : ℤ) (b : ℤ)) = .finite (qrMk (a : ℤ) (b : ℤ))) :
    interpret_field_rational (fracTok a b) false
      = .ok (.float (.finite (qrMk (a : ℤ) (b : ℤ)))) := by
  have hna := natStr_ne_nil a
  have hnb := natStr_ne_nil b
  have hdiga := natStr_isDigit a
  have hdigb := natStr_isDigit b
  have hint : interpret_field (fracTok a b) = .str (fracTok a b) := by
    unfold interpret_field
    rw [show fracTok a b = natStr a ++ '/' :: natStr b from rfl,
        pyIntParse_digits_slash _ _ hna hdiga hdigb,
        pyFloatParse_digits_slash _ _ hna hdiga hdigb]
  show interpret_field_rational_noadd (fracTok a b) = _
  unfold interpret_field_rational_noadd
  rw [hint]
  dsimp only []
  rw [show fracTok a b = natStr a ++ '/' :: natStr b from rfl,
      reMatchEnd_fracTok _ _ hna hnb hdiga hdigb]
  dsimp only []
  rw [pyFloatOfStr_digits _ hna hdiga, pyFloatOfStr_digits _ hnb hdigb]
  simp only [exceptBind_ok]
  rw [mkPFloat_digits (natStr a), mkPFloat_digits (natStr b),
      digitsVal_natStr a, digitsVal_natStr b]
  have hra' : roundFloat ⟨(a : ℤ), 1⟩ = .finite ⟨(a : ℤ), 1⟩ := hra
  have hrb' : roundFloat ⟨(b : ℤ), 1⟩ = .finite ⟨(b : ℤ), 1⟩ := hrb
  rw [hra', hrb']
  have hbz : (⟨(b : ℤ), 1⟩ : QR) ≠ qrZero := by
    intro heq
    have : (b : ℤ) = 0 := congrArg QR.num heq
    omega
  unfold pyDiv
  dsimp only []
  rw [if_neg hbz]
  have hdiv : qrDiv ⟨(a : ℤ), 1⟩ ⟨(b : ℤ), 1⟩ = qrMk (a : ℤ) (b : ℤ) := by
    unfold qrDiv
    simp
  rw [hdiv, hq]
  rfl

theorem durationSymbolic_frac (a b : ℕ) (hb1 : b ≠ 1)
    (hnum : (qrMk (a : ℤ) (b : ℤ)).num = (a : ℤ))
    (hden : (qrMk (a : ℤ) (b : ℤ)).den = b) :
    MatchSnote.DurationSymbolic (snoteWithDuration (.float (.finite (qrMk (a : ℤ) (b : ℤ)))))
      = .ok (.str (fracTok a b)) := by
  unfold MatchSnote.DurationSymbolic snoteWithDuration
  dsimp only []
  unfold fractionFromFloatVal
  dsimp only []
  simp only [exceptBind_ok]
  rw [hnum, hden]
  unfold fractionStr
  rw [if_neg hb1]
  unfold fracTok intStr
  rw [if_neg (Int.not_lt.mpr (Int.natCast_nonneg a)), Int.toNat_ofNat]

theorem dispatchLoop_no_matchError
    (fs : List (List Char → Except PyErr MLRecord)) (l : List Char) :
    resultIsStructuralError (dispatchLoop fs l) = false := by
  induction fs with
  | nil => rfl
  | cons f fs ih =>
    unfold dispatchLoop
    cases h : f l with
    | ok r => rfl
    | error e =>
      cases e
      case matchError => simpa [resultIsStructuralError] using ih
      all_goals rfl

/-- C1 counterexample: the dispatcher raises.  On an insertion line whose
note letter is the invalid H, the insertion grammar matches structurally,
MatchPnote validation raises ValueError, and parse_matchline propagates it
instead of moving on or returning the unmatched marker — the claim that
parse_matchline never raises on validation failures is false on the code. -/
theorem C1_counterexample :
    parse_matchline exBadLetterInsertionLine = .error .valueError := by decide

theorem dispatchLoop_all_matchError
    (fs : List (List Char → Except PyErr MLRecord)) (l : List Char)
    (h : ∀ f ∈ fs, f l = .error .matchError) :
    dispatchLoop fs l = .ok Option.none := by
  induction fs with
  | nil => rfl
  | cons f fs ih =>
    unfold dispatchLoop
    rw [h f (List.mem_cons_self f fs)]
    exact ih (fun g hg => h g (List.mem_cons_of_mem f hg))

/-- C1 (amended): parse_matchline never propagates a structural MatchError —
each line kind's MatchError is caught and the next kind is tried, and when
every kind fails structurally the distinguished unmatched outcome (False)
is returned rather than an exception — but record-validation exceptions
raised during construction (ValueError, AttributeError, ...) are not
caught and propagate to the caller. -/
theorem C1_amended :
    (∀ l : List Char, resultIsStructuralError (parse_matchline l) = false)
    ∧ (∀ l : List Char, (∀ f ∈ from_matchline_methods, f l = .error .matchError) →
        parse_matchline l = .ok Option.none)
    ∧ parse_matchline exIntNameInsertionLine = .error .attributeError :=
  ⟨fun l => dispatchLoop_no_matchError from_matchline_methods l,
   fun l h => dispatchLoop_all_matchError from_matchline_methods l h,
   by decide⟩

/-- C1 witness: a line fitting no grammar yields the unmatched outcome. -/
theorem C1_amended_witness :
    parse_matchline (strL (r"foo(1,2).")) = .ok Option.none :=
  C1_amended.2.1 (strL (r"foo(1,2).")) (by decide)

/-- C2 counterexample: parsing the well-formed score-note line with Offset
literal `1/10` succeeds, but serializing the record renders the Offset as
the exact binary fraction of the nearest double, not as `1/10`, so
`serialize(parse(text)) ≠ text`. -/
theorem C2_counterexample :
    Except.bind (MatchSnote.from_matchline exSnoteTenthLine) MatchSnote.matchline
      = .ok exSnoteTenthRendered
    ∧ exSnoteTenthRendered ≠ exSnoteTenthLine := ⟨by decide, by decide⟩

/-- C2 (amended): float-valued Offset/Duration fields render as the
lowest-terms fraction of the float's exact binary value.  For any rational
literal `a/b` (in lowest terms, `b ≠ 1`) whose components and quotient are
exactly representable in binary64, interpreting the token stores exactly
`a/b` and DurationSymbolic renders it back as the original token; and the
§6 score-note line (whose rational literal `1/4` is exactly representable)
round-trips through MatchSnote.from_matchline and the matchline
serializer.  The float parsed from `1/10` instead renders as
`3602879701896397/36028797018963968` (the counterexample). -/
theorem C2_amended (a b : ℕ) (hb : 1 < b)
    (hra : roundFloat (qrOfNat a) = .finite (qrOfNat a))
    (hrb : roundFloat (qrOfNat b) = .finite (qrOfNat b))
    (hq : roundFloat (qrMk (a : ℤ) (b : ℤ)) = .finite (qrMk (a : ℤ) (b : ℤ)))
    (hnum : (qrMk (a : ℤ) (b : ℤ)).num = (a : ℤ))
    (hden : (qrMk (a : ℤ) (b : ℤ)).den = b) :
    interpret_field_rational (fracTok a b) false
      = .ok (.float (.finite (qrMk (a : ℤ) (b : ℤ))))
    ∧ MatchSnote.DurationSymbolic
        (snoteWithDuration (.float (.finite (qrMk (a : ℤ) (b : ℤ)))))
      = .ok (.str (fracTok a b))
    ∧ Except.bind (MatchSnote.from_matchline exSnoteLine) MatchSnote.matchline
      = .ok exSnoteLine :=
  ⟨interpret_fracTok a b (by omega) hra hrb hq,
   durationSymbolic_frac a b (by omega) hnum hden,
   by decide⟩

/-- C2 witness: the amended statement at the concrete literal `1/4`. -/
theorem C2_amended_witness :
    interpret_field_rational (fracTok 1 4) false
      = .ok (.float (.finite (qrMk ((1 : ℕ) : ℤ) ((4 : ℕ) : ℤ))))
    ∧ MatchSnote.DurationSymbolic
        (snoteWithDuration (.float (.finite (qrMk ((1 : ℕ) : ℤ) ((4 : ℕ) : ℤ)))))
      = .ok (.str (fracTok 1 4))
    ∧ Except.bind (MatchSnote.from_matchline exSnoteLine) MatchSnote.matchline
      = .ok exSnoteLine :=
  C2_amended 1 4 (by decide) (by decide) (by decide) (by decide) (by decide) (by decide)

/-- C3 counterexample: the standalone 8-field performed-note line of §6 is
reported unmatched by parse_matchline (none of the seven dispatched line
kinds matches a bare note line), so the nine-example round-trip claim is
false for it. -/
theorem C3_counterexample :
    parse_matchline exNoteLine = .ok Option.none := by decide

/-- C3 (amended): of the nine §6 example lines, the six that the dispatcher
classifies (paired line, deletion, insertion, info, meta, sustain) parse to
records whose serialization reproduces the input exactly, while the three
standalone lines (the bare score-note line and both bare performed-note
lines) are reported as the unmatched outcome, not as records. -/
theorem C3_amended :
    parseAndSerialize exSnoteNoteLine = .ok (some exSnoteNoteLine)
    ∧ parseAndSerialize exSnoteDeletionLine = .ok (some exSnoteDeletionLine)
    ∧ parseAndSerialize exInsertionLine = .ok (some exInsertionLine)
    ∧ parseAndSerialize exInfoLine = .ok (some exInfoLine)
    ∧ parseAndSerialize exMetaLine = .ok (some exMetaLine)
    ∧ parseAndSerialize exSustainLine = .ok (some exSustainLine)
    ∧ parse_matchline exSnoteLine = .ok Option.none
    ∧ parse_matchline exNoteLine = .ok Option.none
    ∧ parse_matchline exOldNoteLine = .ok Option.none :=
  ⟨by decide, by decide, by decide, by decide, by decide, by decide,
   by decide, by decide, by decide⟩

/-- C4: the legacy paired line (score-note part, `-`, 7-field performed-note
part) does NOT match the legacy paired grammar: MatchSnoteNote.pattern_v1
concatenates the performed-note pattern with the legacy performed-note
pattern instead of the score-note pattern, so both paired patterns fail and
from_matchline raises MatchError; the dispatcher then reports the line as
unmatched instead of producing the version-1.0 paired record the claim
describes. -/
theorem C4_code_behavior :
    MatchSnoteNote.from_matchline exLegacyPairedLine = .error .matchError
    ∧ parse_matchline exLegacyPairedLine = .ok Option.none := ⟨by decide, by decide⟩

/-- C5 counterexample: interpreting the token `1/0` raises.  The rational
pattern matches, `float('1')/float('0')` is evaluated, and the division by
(finite) zero raises ZeroDivisionError, which propagates — so
interpret_field_rational is not total. -/
theorem C5_counterexample :
    interpret_field_rational (strL (r"1/0")) false = .error .zeroDivisionError := by
  decide

/-- C5 (amended): with additions disabled, interpret_field_rational either
returns a value (degrading unparseable tokens to the original string) or
raises exactly ZeroDivisionError, and every token of the form
digits/digits whose denominator digits denote zero does raise it. -/
theorem C5_amended :
    (∀ s : List Char,
      (∃ v, interpret_field_rational s false = .ok v)
      ∨ interpret_field_rational s false = .error .zeroDivisionError)
    ∧ (∀ da db : List Char, da ≠ [] → db ≠ [] →
        (∀ c ∈ da, isDigitB c = true) → (∀ c ∈ db, isDigitB c = true) →
        digitsVal db = 0 →
        interpret_field_rational (da ++ '/' :: db) false
          = .error .zeroDivisionError) := by
  constructor
  · intro s
    show (∃ v, interpret_field_rational_noadd s = .ok v)
        ∨ interpret_field_rational_noadd s = .error .zeroDivisionError
    cases hr : interpret_field_rational_noadd s with
    | ok v => exact Or.inl ⟨v, rfl⟩
    | error e => exact Or.inr (by rw [interpret_noadd_err s e hr])
  · intro da db hna hnb hda hdb hz
    have hint : interpret_field (da ++ '/' :: db) = .str (da ++ '/' :: db) := by
      unfold interpret_field
      rw [pyIntParse_digits_slash _ _ hna hda hdb,
          pyFloatParse_digits_slash _ _ hna hda hdb]
    show interpret_field_rational_noadd (da ++ '/' :: db) = _
    unfold interpret_field_rational_noadd
    rw [hint]
    dsimp only []
    rw [reMatchEnd_fracTok da db hna hnb hda hdb]
    dsimp only []
    rw [pyFloatOfStr_digits da hna hda, pyFloatOfStr_digits db hnb hdb]
    simp only [exceptBind_ok]
    rw [mkPFloat_digits db, hz]
    rw [show roundFloat ⟨((0 : ℕ) : ℤ), 1⟩ = PFloat.finite qrZero from by decide]
    unfold pyDiv
    dsimp only []
    rw [if_pos rfl]
    rfl

/-- C5 witness: the zero-denominator direction at the token `1/0`. -/
theorem C5_amended_witness :
    interpret_field_rational (strL (r"1") ++ '/' :: strL (r"0")) false
      = .error .zeroDivisionError :=
  C5_amended.2 (strL (r"1")) (strL (r"0")) (by decide) (by decide) (by decide)
    (by decide) (by decide)

/-- C6: spelling_to_midi consistency.  pitch_name_2_midi_PC('n','E',4)
returns (64, 4); constructing a MatchPnote with MIDI pitch 64 and spelling
(E,n,4) succeeds; constructing one with MIDI pitch 65 and the same spelling
fails validation with ValueError. -/
theorem C6_pitch_consistency :
    pitch_name_2_midi_PC (.str ['n']) (.str ['E']) 4 = .ok (64, 4)
    ∧ exceptIsOk (MatchPnote.init (.int 0) (.str ['E']) (.str ['n']) (.int 4)
        (.int 471720) (.int 472397) (.int 472397) (.int 49) (.int 64) (qrOfInt 5))
      = true
    ∧ MatchPnote.init (.int 0) (.str ['E']) (.str ['n']) (.int 4)
        (.int 471720) (.int 472397) (.int 472397) (.int 49) (.int 65) (qrOfInt 5)
      = .error .valueError :=
  ⟨by decide, by decide, by decide⟩

/-- C7: version fallback for the 7-field performed-note line.  The 8-field
pattern fails structurally everywhere in the line, the legacy pattern
matches, and the record is tagged with version 1.0 and has AdjOffset
defaulted to Offset = 472397. -/
theorem C7_version_fallback :
    reSearch pnoteToks exOldNoteLine = Option.none
    ∧ (MatchPnote.from_matchline exOldNoteLine).map
        (fun r => (r.version, r.AdjOffset, r.Offset))
      = .ok (qrOfInt 1, .int 472397, .int 472397) := ⟨by decide, by decide⟩

/-- C8 counterexample: with NoteName "H" but Modifier and Octave missing
(None) and a MIDI pitch 64 supplied, construction succeeds — the invalid
letter is never examined because the spelling is incomplete and is
back-filled from the MIDI pitch instead.  So "fails for every combination
of the other constructor arguments" is false on the code. -/
theorem C8_counterexample :
    exceptIsOk (MatchPnote.init (.int 0) (.str ['H']) .none .none
      (.int 1) (.int 2) (.int 3) (.int 49) (.int 64) (qrOfInt 5)) = true := by decide

/-- C8 (amended): constructing a MatchPnote with NoteName "H" fails with
ValueError for every combination of the other constructor arguments in
which Modifier and Octave are actually provided (not None) — i.e. whenever
the full spelling is considered at all. -/
theorem C8_amended (Number Modifier Octave Onset Offset AdjOffset Velocity MidiPitch : PyVal)
    (version : QR) (hm : isNone Modifier = false) (ho : isNone Octave = false) :
    MatchPnote.init Number (.str ['H']) Modifier Octave Onset Offset AdjOffset
      Velocity MidiPitch version = .error .valueError := by
  unfold MatchPnote.init
  rw [hm, ho]
  rfl

/-- C8 witness: the amended statement at concrete arguments. -/
theorem C8_amended_witness :
    MatchPnote.init (.int 0) (.str ['H']) (.str ['n']) (.int 4) (.int 1) (.int 2)
      (.int 3) (.int 49) .none (qrOfInt 5) = .error .valueError :=
  C8_amended (.int 0) (.str ['n']) (.int 4) (.int 1) (.int 2) (.int 3) (.int 49)
    .none (qrOfInt 5) (by decide) (by decide)

/-- C9: pairing with the default same_pitch_spelling=True overwrites exactly
the performed note's NoteName, Modifier and Octave with the score note's,
and leaves Number, Onset, Offset, AdjOffset, Velocity and version (and the
score note itself) unchanged. -/
theorem C9_pairing_frame (s : MatchSnote) (n : MatchPnote) :
    (MatchSnoteNote.init s n true).snote = s
    ∧ (MatchSnoteNote.init s n true).note.NoteName = s.NoteName
    ∧ (MatchSnoteNote.init s n true).note.Modifier = s.Modifier
    ∧ (MatchSnoteNote.init s n true).note.Octave = s.Octave
    ∧ (MatchSnoteNote.init s n true).note.Number = n.Number
    ∧ (MatchSnoteNote.init s n true).note.Onset = n.Onset
    ∧ (MatchSnoteNote.init s n true).note.Offset = n.Offset
    ∧ (MatchSnoteNote.init s n true).note.AdjOffset = n.AdjOffset
    ∧ (MatchSnoteNote.init s n true).note.Velocity = n.Velocity
    ∧ (MatchSnoteNote.init s n true).note.version = n.version :=
  ⟨rfl, rfl, rfl, rfl, rfl, rfl, rfl, rfl, rfl, rfl⟩

/-- C10: the sum-of-rationals extension is never enabled.  Every line kind
interprets captured substrings through interpret_field_rational with
allow_additions at its default False, under which any `+`-carrying token
that is not itself an int or float literal is stored as the original
string, never as a numeric sum; in particular the dispatcher stores the
Value token `1/2+1/4` of an info line as that very string. -/
theorem C10_no_sum_extension :
    (∀ s : List Char, '+' ∈ s → pyIntParse s = none → pyFloatParse s = none →
      interpret_field_rational s false = .ok (.str s))
    ∧ parse_matchline exPlusInfoLine
      = .ok (some (.info ⟨.str (strL (r"slur")), .str (strL (r"1/2+1/4"))⟩)) :=
  ⟨fun s h1 h2 h3 => interpret_plus_str s h1 h2 h3, by decide⟩

/-- C10 witness: the universal part applied to the token `1/2+1/4`. -/
theorem C10_no_sum_extension_witness :
    interpret_field_rational (strL (r"1/2+1/4")) false
      = .ok (.str (strL (r"1/2+1/4"))) :=
  C10_no_sum_extension.1 (strL (r"1/2+1/4")) (by decide) (by decide) (by decide)
